import Mathlib

/-!
Verification development for the multi-protocol on-chain event decoder
(`src/streaming/event_parser`).  The core transaction walker, reconciliation
engine and post-processor of `core/traits.rs` are embedded shallowly below;
supporting utilities that live outside the provided sources (`common/utils`,
external codec crates, and the per-protocol event structs) are modelled from
the specification where a claim depends on them, and each such definition says
so in its doc comment.

Conventions: machine bytes are `Nat` values (always reduced mod 256 at the
codec boundary), public keys are `Nat` (equality by value, zero = the default
key), Rust `Vec` is `List`, Rust `Option`/`Result` are `Option`/`Except`, and a
Rust panic is modelled as the distinguished error `ParseErr.panic`, which the
surrounding code never catches.
-/

namespace SolStreamer

/-! ## Rust string primitives

The source manipulates index strings with `str::starts_with`, `str::contains`,
`str::split`, byte slicing and `parse::<u32>`.  These are embedded as
transparent list-of-characters operations with the Rust semantics (the strings
involved are ASCII, so Rust byte positions coincide with character positions).
-/

/-- Rust `str::starts_with` (string pattern). -/
def rStartsWith (s pat : String) : Bool := pat.data.isPrefixOf s.data

/-- Rust `str::contains` with a single-character pattern. -/
def rContains (s : String) (c : Char) : Bool := s.data.contains c

/-- Helper for `splitDot`: accumulates the current fragment (reversed). -/
def splitDotAux : List Char → List Char → List String
  | [], acc => [String.mk acc.reverse]
  | c :: rest, acc =>
      if c = '.' then String.mk acc.reverse :: splitDotAux rest []
      else splitDotAux rest (c :: acc)

/-- Rust `str::split(".")` collected into a list; never returns `[]`. -/
def splitDot (s : String) : List String := splitDotAux s.data []

/-- Rust `.split(".").nth(0).unwrap()` (total: `splitDot` is never empty). -/
def splitDotHead (s : String) : String := (splitDot s).headD ""

/-- Rust `.split(".").nth(1).unwrap()`; in the source this is only evaluated
when the string contains a dot, so the second fragment exists and the
default is never used. -/
def splitDotSecond (s : String) : String := (splitDot s).getD 1 ""

/-- Numeric value of a digit string (no validity check; callers check). -/
def digitsVal (cs : List Char) : Nat := cs.foldl (fun a c => a * 10 + (c.toNat - 48)) 0

/-- Rust `str::parse::<u32>`: optional leading `+`, one or more digits, and
the value must fit in 32 bits (overflow is an error, not wrap-around). -/
def rParseU32 (s : String) : Option Nat :=
  let cs := match s.data with
    | '+' :: rest => rest
    | cs => cs
  if cs.isEmpty then none
  else if cs.all Char.isDigit then
    if digitsVal cs < 4294967296 then some (digitsVal cs) else none
  else none

/-- Rust `.parse::<u32>().unwrap_or(0)` as used by the merge phase. -/
def rParseU32OrZero (s : String) : Nat := (rParseU32 s).getD 0

/-! ## Primitive codecs

Modelled from the spec: `common/utils` and the `hex`/`bs58`/`base64` crates are
not under `src/`; §4.1 of the spec describes them (little-endian integers,
base58/base64 byte streams, hex encoding for discriminator comparison, all
total with explicit failure).
-/

/-- Lower-case hex digit. -/
def hexDigitChar (n : Nat) : Char :=
  if n < 10 then Char.ofNat (48 + n) else Char.ofNat (87 + n)

/-- Two hex digits of one byte. -/
def hexByteChars (b : Nat) : List Char := [hexDigitChar (b / 16 % 16), hexDigitChar (b % 16)]

/-- Modelled from the spec: `hex::encode` — lower-case hex of a byte string. -/
def hexEncode (bs : List Nat) : String := String.mk ((bs.map hexByteChars).flatten)

/-- Value of one standard-alphabet base64 character. -/
def b64Val (c : Char) : Option Nat :=
  if 65 ≤ c.toNat ∧ c.toNat ≤ 90 then some (c.toNat - 65)
  else if 97 ≤ c.toNat ∧ c.toNat ≤ 122 then some (c.toNat - 71)
  else if 48 ≤ c.toNat ∧ c.toNat ≤ 57 then some (c.toNat + 4)
  else if c = '+' then some 62
  else if c = '/' then some 63
  else none

/-- Decodes base64 in four-character groups with `=` padding. -/
def b64DecodeGroups : List Char → Option (List Nat)
  | [] => some []
  | a :: b :: c :: d :: rest =>
    match b64Val a, b64Val b with
    | some va, some vb =>
      if d = '=' then
        if rest.isEmpty then
          if c = '=' then some [va * 4 + vb / 16]
          else
            match b64Val c with
            | some vc => some [va * 4 + vb / 16, vb % 16 * 16 + vc / 4]
            | none => none
        else none
      else
        match b64Val c, b64Val d with
        | some vc, some vd =>
          match b64DecodeGroups rest with
          | some tail => some ([va * 4 + vb / 16, vb % 16 * 16 + vc / 4, vc % 4 * 64 + vd] ++ tail)
          | none => none
        | _, _ => none
    | _, _ => none
  | _ => none

/-- Modelled from the spec: `decode_base64` of `common/utils` (standard
alphabet, padded). -/
def decodeBase64 (s : String) : Option (List Nat) := b64DecodeGroups s.data

/-- The base58 alphabet. -/
def b58Alphabet : List Char := "123456789ABCDEFGHJKLMNPQRSTUVWXYZabcdefghijkmnopqrstuvwxyz".data

/-- Position of a character in the base58 alphabet. -/
def b58ValAux : List Char → Nat → Char → Option Nat
  | [], _, _ => none
  | a :: rest, i, c => if a = c then some i else b58ValAux rest (i + 1) c

/-- Value of one base58 character. -/
def b58Val (c : Char) : Option Nat := b58ValAux b58Alphabet 0 c

/-- Values of a base58 string, failing on any invalid character. -/
def b58Digits : List Char → Option (List Nat)
  | [] => some []
  | c :: rest =>
    match b58Val c, b58Digits rest with
    | some v, some vs => some (v :: vs)
    | _, _ => none

/-- Base-58 positional value. -/
def b58Num (vs : List Nat) : Nat := vs.foldl (fun a v => a * 58 + v) 0

/-- Big-endian bytes of a natural number (fuel-bounded structural recursion). -/
def natToBytesAux : Nat → Nat → List Nat → List Nat
  | 0, _, acc => acc
  | _ + 1, 0, acc => acc
  | fuel + 1, n, acc => natToBytesAux fuel (n / 256) (n % 256 :: acc)

/-- Leading `'1'` characters of a base58 string (each encodes a zero byte). -/
def countLeadingOnes : List Char → Nat
  | '1' :: rest => countLeadingOnes rest + 1
  | _ => 0

/-- Modelled from the spec: `bs58::decode(..).into_vec()` — base58 to bytes,
failing on invalid characters. -/
def base58Decode (s : String) : Option (List Nat) :=
  match b58Digits s.data with
  | none => none
  | some vs =>
      some (List.replicate (countLeadingOnes s.data) 0 ++
            natToBytesAux (s.data.length + 1) (b58Num vs) [])

/-- Big-endian value of a byte string. -/
def bytesToNat (bs : List Nat) : Nat := bs.foldl (fun a b => a * 256 + b) 0

/-! ## Data model -/

/-- A 32-byte public key, as an opaque value compared by its bytes. -/
abbrev Pubkey := Nat

/-- `Pubkey::default()` — the all-zero key. -/
def pubkeyDefault : Pubkey := 0

/-- Modelled from the spec: `Pubkey::from_str` — base58 decode requiring
exactly 32 bytes. -/
def pubkeyFromStr (s : String) : Option Pubkey :=
  match base58Decode s with
  | some bs => if bs.length = 32 then some (bytesToNat bs) else none
  | none => none

/-- Modelled from the spec: `extract_program_data` of `common/utils` — strips
the literal prefix `"Program data: "` from a log line. -/
def extractProgramData (log : String) : Option String :=
  if rStartsWith log "Program data: " then some (String.mk (log.data.drop 14)) else none

/-- Modelled from the spec (§4.2): `discriminator_matches` of `common/utils` —
the candidate hex string matches when the configuration's string is its
prefix. -/
def discriminatorMatches (candidate disc : String) : Bool := rStartsWith candidate disc

/-- Modelled from the spec (§3, §4.4): `validate_account_indices` of
`common/utils` — every instruction account index must be strictly below the
account-vector length. -/
def validateAccountIndices (ixAccounts : List Nat) (accountCount : Nat) : Bool :=
  ixAccounts.all (· < accountCount)

/-- Rust `as i8` cast of an enumeration position. -/
def i8cast (n : Nat) : Int := ((n : Int) + 128) % 256 - 128

/-- `prost_types::Timestamp`. -/
structure Timestamp where
  seconds : Int
  nanos : Int
  deriving Repr, DecidableEq

/-- Protocol tag (`ProtocolType`). -/
inductive ProtocolType where
  | pumpFun
  | pumpSwap
  | bonk
  | unknownProtocol
  deriving Repr, DecidableEq

/-- Event kind tag (`EventType`); only the kinds the claims touch are listed,
all others are collapsed into `unknownEvent`. -/
inductive EventType where
  | pumpFunCreateToken
  | pumpFunBuy
  | pumpFunSell
  | bonkPoolCreate
  | bonkTrade
  | unknownEvent
  deriving Repr, DecidableEq

/-- Modelled from the spec (§3): a transfer record attached to an event. -/
structure TransferData where
  source : Pubkey
  destination : Pubkey
  mint : Option Pubkey
  amount : Nat
  deriving Repr, DecidableEq

/-- Modelled from the spec (§3, §9): the concrete event structs
(`PumpFunCreateTokenEvent`, `PumpFunTradeEvent`, `BonkPoolCreateEvent`,
`BonkTradeEvent`) are not under `src/`; the runtime-downcast hierarchy is
represented as a tagged variant carrying exactly the fields the walker and
post-processor read or write (`user`, `creator`, `payer`, the two flags, and
one representative log-sourced field, the virtual sol reserves of a trade). -/
inductive EventPayload where
  | pumpFunCreateToken (user creator : Pubkey)
  | pumpFunTrade (user creator : Pubkey)
      (isDevCreateTokenTrade isBot : Bool) (virtualSolReserves : Nat)
  | bonkPoolCreate (creator : Pubkey)
  | bonkTrade (payer : Pubkey) (isDevCreateTokenTrade isBot : Bool)
  | unknownPayload (tag : Nat)
  deriving Repr, DecidableEq

/-- A decoded event (`Box<dyn UnifiedEvent>`): the shared metadata the trait
exposes plus the downcastable payload. -/
structure UnifiedEvent where
  id : String
  eventType : EventType
  index : String
  programReceivedTimeMs : Int
  programHandleTimeConsumingMs : Int
  transferDatas : List TransferData
  payload : EventPayload
  deriving Repr, DecidableEq

/-- `UnifiedEvent::set_transfer_datas`. -/
def setTransferDatas (e : UnifiedEvent) (tds : List TransferData) : UnifiedEvent :=
  { e with transferDatas := tds }

/-- Modelled from the spec (§3): `EventMetadata` of `common` is not under
`src/`; it carries the fields the configuration parsers receive. -/
structure EventMetadata where
  id : String
  signature : String
  slot : Nat
  blockTimeSeconds : Int
  blockTimeMs : Int
  protocol : ProtocolType
  eventType : EventType
  programId : Pubkey
  index : String
  programReceivedTimeMs : Int
  deriving Repr, DecidableEq

/-- `solana_sdk::instruction::CompiledInstruction` (data already raw bytes). -/
structure CompiledInstruction where
  programIdIndex : Nat
  accounts : List Nat
  data : List Nat
  deriving Repr, DecidableEq

/-- `UiCompiledInstruction` (data still a base58 string). -/
structure UiCompiledInstruction where
  programIdIndex : Nat
  accounts : List Nat
  data : String
  deriving Repr, DecidableEq

/-- `UiInstruction`: only the `Compiled` variant is processed; every other
variant is silently skipped by the walker. -/
inductive UiInstruction where
  | compiled (c : UiCompiledInstruction)
  | other
  deriving Repr, DecidableEq

/-- `UiInnerInstructions`: one inner-instruction group with its parent index. -/
structure UiInnerInstructions where
  index : Nat
  instructions : List UiInstruction
  deriving Repr, DecidableEq

/-- `UiLoadedAddresses`: address-lookup results as base58 strings. -/
structure LoadedAddresses where
  writable : List String
  readonly : List String
  deriving Repr, DecidableEq

/-- The transaction-status metadata record the walker consumes. -/
structure TransactionStatusMeta where
  err : Option String
  innerInstructions : Option (List UiInnerInstructions)
  loadedAddresses : Option LoadedAddresses
  logMessages : Option (List String)
  deriving Repr, DecidableEq

/-- The decoded message of `VersionedTransaction`. -/
structure VersionedTransaction where
  staticAccountKeys : List Pubkey
  instructions : List CompiledInstruction
  deriving Repr, DecidableEq

/-- `EncodedTransactionWithStatusMeta`; `transaction.decode()` either yields a
`VersionedTransaction` or fails, so the encoded form is carried as the
decode result. -/
structure EncodedTransactionWithStatusMeta where
  transaction : Option VersionedTransaction
  meta : Option TransactionStatusMeta
  deriving Repr, DecidableEq

/-- Failure channel of the embedded walker: the single surfaced error
(`Missing transaction metadata`) and Rust panics, which the source never
catches (`unwrap` on absent metadata fields, on base58 decoding, and
out-of-bounds indexing). -/
inductive ParseErr where
  | missingMetadata
  | panic (msg : String)
  deriving Repr, DecidableEq

/-! ## Parser configurations and the parser interface

`GenericEventParseConfig` and the `EventParser` trait of `core/traits.rs`.
The trait becomes a structure of its required methods; the default methods
(`parse_transaction`, the pass functions, `process_events`) become standalone
functions over that structure.  The per-event dynamic `UnifiedEvent::merge`
is carried as the `mergeFn` field (the concrete per-protocol merge bodies are
not under `src/`).
-/

/-- `GenericEventParseConfig`: one registry entry. -/
structure GenericEventParseConfig where
  innerInstructionDiscriminator : String
  instructionDiscriminator : List Nat
  eventType : EventType
  innerInstructionParser : List Nat → EventMetadata → Option UnifiedEvent
  instructionParser : List Nat → List Pubkey → EventMetadata → Option UnifiedEvent

/-- The free function `parse_transfer_datas_from_next_instructions` of
`common` is not under `src/`; the walker takes it as a parameter
(group, position as `i8`, account vector, surrounding event kind). -/
abbrev TransferFn := UiInnerInstructions → Int → List Pubkey → EventType → List TransferData

/-- The `EventParser` trait: required methods plus the dynamic merge.  The two
parse methods are `Except`-valued because their `GenericEventParser`
implementations can panic (base58 `unwrap`, raw indexing). -/
structure EventParser where
  parseEventsFromInnerInstruction :
    UiCompiledInstruction → String → Nat → Option Timestamp → Int → String →
      Except ParseErr (List UnifiedEvent)
  parseEventsFromInstruction :
    CompiledInstruction → List Pubkey → String → Nat → Option Timestamp → Int → String →
      Except ParseErr (List UnifiedEvent)
  getInnerInstructionConfigs : List (String × List GenericEventParseConfig)
  getProtocolType : ProtocolType
  getProgramId : Pubkey
  shouldHandle : Pubkey → Bool
  mergeFn : UnifiedEvent → UnifiedEvent → UnifiedEvent

/-! ## The generic parser base (`GenericEventParser`) -/

/-- `GenericEventParser`: the two registries, keyed by inner-instruction
discriminator string and by instruction discriminator bytes.  Rust groups
configurations in `HashMap`s; they are embedded as association lists in
first-insertion order. -/
structure GenericEventParser where
  programId : Pubkey
  protocolType : ProtocolType
  innerInstructionConfigs : List (String × List GenericEventParseConfig)
  instructionConfigs : List (List Nat × List GenericEventParseConfig)

/-- `entry(k).or_insert(vec![]).push(c)` on an association list. -/
def insertGrouped {κ : Type} [BEq κ] (m : List (κ × List GenericEventParseConfig))
    (k : κ) (c : GenericEventParseConfig) : List (κ × List GenericEventParseConfig) :=
  match m with
  | [] => [(k, [c])]
  | (k', cs) :: rest =>
      if k' == k then (k', cs ++ [c]) :: rest else (k', cs) :: insertGrouped rest k c

/-- `GenericEventParser::new`: groups the configurations into both registries. -/
def GenericEventParser.new (programId : Pubkey) (protocolType : ProtocolType)
    (configs : List GenericEventParseConfig) : GenericEventParser :=
  { programId := programId
    protocolType := protocolType
    innerInstructionConfigs :=
      configs.foldl (fun m c => insertGrouped m c.innerInstructionDiscriminator c) []
    instructionConfigs :=
      configs.foldl (fun m c => insertGrouped m c.instructionDiscriminator c) [] }

/-- The `EventMetadata::new` call of the generic parse methods (signature is
used both as id seed and signature, block time defaulted to zero). -/
def mkEventMetadata (sig : String) (slot : Nat) (blockTime : Option Timestamp)
    (protocol : ProtocolType) (eventType : EventType) (programId : Pubkey)
    (index : String) (prtMs : Int) : EventMetadata :=
  let ts := blockTime.getD ⟨0, 0⟩
  { id := sig
    signature := sig
    slot := slot
    blockTimeSeconds := ts.seconds
    blockTimeMs := ts.seconds * 1000 + Int.tdiv ts.nanos 1000000
    protocol := protocol
    eventType := eventType
    programId := programId
    index := index
    programReceivedTimeMs := prtMs }

/-- Runs every configuration of one discriminator bucket, keeping the
non-empty results in order. -/
def runInnerConfigs (g : GenericEventParser) (sig : String) (slot : Nat)
    (blockTime : Option Timestamp) (prtMs : Int) (index : String) (data : List Nat)
    (configs : List GenericEventParseConfig) (acc : List UnifiedEvent) : List UnifiedEvent :=
  configs.foldl (fun evs cfg =>
    match cfg.innerInstructionParser data
        (mkEventMetadata sig slot blockTime g.protocolType cfg.eventType g.programId index prtMs) with
    | some e => evs ++ [e]
    | none => evs) acc

/-- `GenericEventParser::parse_events_from_inner_instruction`: base58-decode
the data (`unwrap` — a decode failure panics), require 16 bytes, then run
every configuration whose discriminator is a hex prefix of the bytes on the
payload after the 16-byte header. -/
def genericInnerInstructionEvents (g : GenericEventParser) (ui : UiCompiledInstruction)
    (sig : String) (slot : Nat) (blockTime : Option Timestamp) (prtMs : Int)
    (index : String) : Except ParseErr (List UnifiedEvent) :=
  match base58Decode ui.data with
  | none => .error (.panic "bs58 decode unwrap in parse_events_from_inner_instruction")
  | some decoded =>
    if decoded.length < 16 then .ok []
    else
      let hexStr := "0x" ++ hexEncode decoded
      let data := decoded.drop 16
      .ok (g.innerInstructionConfigs.foldl (fun evs pr =>
        if discriminatorMatches hexStr pr.1 then
          runInnerConfigs g sig slot blockTime prtMs index data pr.2 evs
        else evs) [])

/-- Runs every configuration of one instruction bucket. -/
def runInstructionConfigs (g : GenericEventParser) (sig : String) (slot : Nat)
    (blockTime : Option Timestamp) (prtMs : Int) (index : String) (data : List Nat)
    (accountPubkeys : List Pubkey) (configs : List GenericEventParseConfig)
    (acc : List UnifiedEvent) : List UnifiedEvent :=
  configs.foldl (fun evs cfg =>
    match cfg.instructionParser data accountPubkeys
        (mkEventMetadata sig slot blockTime g.protocolType cfg.eventType g.programId index prtMs) with
    | some e => evs ++ [e]
    | none => evs) acc

/-- One `(discriminator, configs)` step of
`GenericEventParser::parse_events_from_instruction`: prefix-match the raw
data, validate the account indices (skipping the bucket on failure), resolve
the accounts by index, then run the configurations. -/
def instructionBucketStep (g : GenericEventParser) (ix : CompiledInstruction)
    (accounts : List Pubkey) (sig : String) (slot : Nat) (blockTime : Option Timestamp)
    (prtMs : Int) (index : String) (evs : List UnifiedEvent)
    (pr : List Nat × List GenericEventParseConfig) : List UnifiedEvent :=
  if ix.data.length < pr.1.length then evs
  else if ix.data.take pr.1.length == pr.1 then
    if !validateAccountIndices ix.accounts accounts.length then evs
    else
      let accountPubkeys := ix.accounts.map (fun i => accounts.getD i pubkeyDefault)
      runInstructionConfigs g sig slot blockTime prtMs index
        (ix.data.drop pr.1.length) accountPubkeys pr.2 evs
  else evs

/-- `GenericEventParser::parse_events_from_instruction`: raw indexing of the
program id (out of range panics), `should_handle` identity check, then every
discriminator bucket. -/
def genericInstructionEvents (g : GenericEventParser) (ix : CompiledInstruction)
    (accounts : List Pubkey) (sig : String) (slot : Nat) (blockTime : Option Timestamp)
    (prtMs : Int) (index : String) : Except ParseErr (List UnifiedEvent) :=
  match accounts.get? ix.programIdIndex with
  | none => .error (.panic "index out of bounds in parse_events_from_instruction")
  | some programId =>
    if !(programId == g.programId) then .ok []
    else
      .ok (g.instructionConfigs.foldl
        (instructionBucketStep g ix accounts sig slot blockTime prtMs index) [])

/-- Packages a `GenericEventParser` (plus a dynamic merge) as the trait
value, as the per-protocol parsers do by delegation. -/
def EventParser.ofGeneric (g : GenericEventParser)
    (mergeFn : UnifiedEvent → UnifiedEvent → UnifiedEvent) : EventParser :=
  { parseEventsFromInnerInstruction := genericInnerInstructionEvents g
    parseEventsFromInstruction := genericInstructionEvents g
    getInnerInstructionConfigs := g.innerInstructionConfigs
    getProtocolType := g.protocolType
    getProgramId := g.programId
    shouldHandle := fun k => k == g.programId
    mergeFn := mergeFn }

/-! ## Pass B — top-level instructions
(`parse_instruction_events_from_versioned_transaction`) -/

/-- The padding step of Pass B (`traits.rs` lines 116–122): the maximum
account index of the instruction (`iter().max().unwrap_or(&0)`), and a pad
with default keys only when that maximum strictly exceeds the vector length,
pushing for `accounts.len()..max_idx`. -/
def padAccounts (ixAccounts : List Nat) (accounts : List Pubkey) : List Pubkey :=
  let maxIdx := ixAccounts.foldl Nat.max 0
  if accounts.length < maxIdx then
    accounts ++ List.replicate (maxIdx - accounts.length) pubkeyDefault
  else accounts

/-- The loop body of Pass B over the enumerated top-level instructions; the
(padded) account vector is threaded through the loop, as in the source where
`accounts` is a mutable local. -/
def passBGo (p : EventParser) (tf : TransferFn) (sig : String) (slot : Option Nat)
    (blockTime : Option Timestamp) (prtMs : Int) (inns : List UiInnerInstructions) :
    Nat → List CompiledInstruction → List Pubkey → Except ParseErr (List UnifiedEvent)
  | _, [], _ => .ok []
  | idx, ix :: rest, accounts =>
    match accounts.get? ix.programIdIndex with
    | none => passBGo p tf sig slot blockTime prtMs inns (idx + 1) rest accounts
    | some programId =>
      if p.shouldHandle programId then
        let accounts2 := padAccounts ix.accounts accounts
        match p.parseEventsFromInstruction ix accounts2 sig (slot.getD 0) blockTime prtMs
            (Nat.repr idx) with
        | .error e => .error e
        | .ok evs =>
          let evs2 :=
            if 0 < evs.length then
              match inns.find? (fun inn => inn.index == idx % 256) with
              | some inn =>
                  evs.map (fun e => setTransferDatas e (tf inn (-1) accounts2 e.eventType))
              | none => evs
            else evs
          match passBGo p tf sig slot blockTime prtMs inns (idx + 1) rest accounts2 with
          | .error e => .error e
          | .ok restEvs => .ok ((if 0 < evs.length then evs2 else []) ++ restEvs)
      else passBGo p tf sig slot blockTime prtMs inns (idx + 1) rest accounts

/-- Pass B: skip everything unless some account is a handled program, then
walk the instructions. -/
def parseInstructionEventsFromVersionedTransaction (p : EventParser) (tf : TransferFn)
    (vtx : VersionedTransaction) (sig : String) (slot : Option Nat)
    (blockTime : Option Timestamp) (prtMs : Int) (accounts0 : List Pubkey)
    (inns : List UiInnerInstructions) : Except ParseErr (List UnifiedEvent) :=
  if accounts0.any p.shouldHandle then
    passBGo p tf sig slot blockTime prtMs inns 0 vtx.instructions accounts0
  else .ok []

/-! ## Pass C — inner instructions -/

/-- The loop body of Pass C over the enumerated instructions of one inner
group (`traits.rs` lines 245–308): the base58 `data` is decoded with
`unwrap` (panic on failure), both the instruction parser and the
inner-instruction parser run with index `"T.I"`, transfers are attached to
non-empty results, and non-`Compiled` variants are skipped (still counting
in the enumeration). -/
def passCInstrGo (p : EventParser) (tf : TransferFn) (accounts : List Pubkey)
    (sig : String) (slot : Option Nat) (blockTime : Option Timestamp) (prtMs : Int)
    (inn : UiInnerInstructions) :
    Nat → List UiInstruction → Except ParseErr (List UnifiedEvent × List UnifiedEvent)
  | _, [] => .ok ([], [])
  | pos, ui :: rest =>
    match ui with
    | .other => passCInstrGo p tf accounts sig slot blockTime prtMs inn (pos + 1) rest
    | .compiled c =>
      match base58Decode c.data with
      | none => .error (.panic "bs58 decode unwrap in parse_transaction inner loop")
      | some decoded =>
        let ci : CompiledInstruction :=
          { programIdIndex := c.programIdIndex, accounts := c.accounts, data := decoded }
        let idxStr := Nat.repr inn.index ++ "." ++ Nat.repr pos
        match p.parseEventsFromInstruction ci accounts sig (slot.getD 0) blockTime prtMs idxStr with
        | .error e => .error e
        | .ok evs =>
          let evs2 :=
            if 0 < evs.length then
              evs.map (fun e => setTransferDatas e (tf inn (i8cast pos) accounts e.eventType))
            else evs
          match p.parseEventsFromInnerInstruction c sig (slot.getD 0) blockTime prtMs idxStr with
          | .error e => .error e
          | .ok ievs =>
            let ievs2 :=
              if 0 < ievs.length then
                ievs.map (fun e => setTransferDatas e (tf inn (i8cast pos) accounts e.eventType))
              else ievs
            match passCInstrGo p tf accounts sig slot blockTime prtMs inn (pos + 1) rest with
            | .error e => .error e
            | .ok (ri, rn) =>
                .ok ((if 0 < evs.length then evs2 else []) ++ ri,
                     (if 0 < ievs.length then ievs2 else []) ++ rn)

/-- Pass C over all inner groups, accumulating additions to the
instruction-event list (first component) and the inner-event list (second). -/
def passCAll (p : EventParser) (tf : TransferFn) (accounts : List Pubkey) (sig : String)
    (slot : Option Nat) (blockTime : Option Timestamp) (prtMs : Int) :
    List UiInnerInstructions → Except ParseErr (List UnifiedEvent × List UnifiedEvent)
  | [] => .ok ([], [])
  | inn :: rest =>
    match passCInstrGo p tf accounts sig slot blockTime prtMs inn 0 inn.instructions with
    | .error e => .error e
    | .ok (i1, n1) =>
      match passCAll p tf accounts sig slot blockTime prtMs rest with
      | .error e => .error e
      | .ok (i2, n2) => .ok (i1 ++ i2, n1 ++ n2)

/-! ## Pass D — log-sourced events (`parse_events_from_logs`) -/

/-- The `EventMetadata::new` call of the log pass: signature doubles as id,
index is the literal `"log"`, and no received-time is threaded through. -/
def logMetadata (p : EventParser) (sig : String) (slot : Option Nat)
    (blockTime : Option Timestamp) (cfg : GenericEventParseConfig) : EventMetadata :=
  { id := sig
    signature := sig
    slot := slot.getD 0
    blockTimeSeconds := (blockTime.map (·.seconds)).getD 0
    blockTimeMs := (blockTime.map (fun bt => bt.seconds * 1000 + Int.tdiv bt.nanos 1000000)).getD 0
    protocol := p.getProtocolType
    eventType := cfg.eventType
    programId := p.getProgramId
    index := "log"
    programReceivedTimeMs := 0 }

/-- Runs the inner-instruction parsers of one bucket on a log payload. -/
def logConfigEvents (p : EventParser) (sig : String) (slot : Option Nat)
    (blockTime : Option Timestamp) (data : List Nat)
    (configs : List GenericEventParseConfig) : List UnifiedEvent :=
  configs.foldl (fun evs cfg =>
    match cfg.innerInstructionParser data (logMetadata p sig slot blockTime cfg) with
    | some e => evs ++ [e]
    | none => evs) []

/-- The per-bucket dispatch of the log pass: a full-discriminator prefix match
skips 16 payload bytes; otherwise, when the discriminator (without `0x`) has
at least 16 hex characters, its trailing half — the 8-byte secondary
discriminator — is tried, skipping 8 payload bytes. -/
def logBucketEvents (p : EventParser) (sig : String) (slot : Option Nat)
    (blockTime : Option Timestamp) (decoded : List Nat)
    (pr : String × List GenericEventParseConfig) : List UnifiedEvent :=
  let hexStr := "0x" ++ hexEncode decoded
  if rStartsWith hexStr pr.1 then
    logConfigEvents p sig slot blockTime (decoded.drop 16) pr.2
  else
    let discNoPfx := if rStartsWith pr.1 "0x" then String.mk (pr.1.data.drop 2) else pr.1
    if 16 ≤ discNoPfx.length then
      let secondHalf := String.mk (discNoPfx.data.drop 16)
      if rStartsWith hexStr ("0x" ++ secondHalf) then
        logConfigEvents p sig slot blockTime (decoded.drop 8) pr.2
      else []
    else []

/-- Events of one log line: lines without the `"Program data: "` prefix,
undecodable payloads and payloads shorter than 16 bytes contribute nothing;
otherwise every bucket of the inner-instruction registry is tried. -/
def logLineEvents (p : EventParser) (sig : String) (slot : Option Nat)
    (blockTime : Option Timestamp) (log : String) : List UnifiedEvent :=
  match extractProgramData log with
  | none => []
  | some dataStr =>
    match decodeBase64 dataStr with
    | none => []
    | some decoded =>
      if 16 ≤ decoded.length then
        (p.getInnerInstructionConfigs.map (logBucketEvents p sig slot blockTime decoded)).flatten
      else []

/-- `parse_events_from_logs` over the whole log-message list. -/
def parseEventsFromLogs (p : EventParser) (logs : List String) (sig : String)
    (slot : Option Nat) (blockTime : Option Timestamp) : List UnifiedEvent :=
  (logs.map (logLineEvents p sig slot blockTime)).flatten

/-! ## Reconciliation (`traits.rs` lines 330–375) -/

/-- The inner loop of the merge phase: one instruction event `e1` scans the
inner/log-event list.  On an id match: index `"log"` merges and the scan
continues on the merged event; an undotted `e1.index` against a dotted
`e2.index` with the same leading fragment merges and stops; two dotted
indices with equal leading fragments merge and stop when `e2`'s numeric
child exceeds `e1`'s; everything else is skipped. -/
def mergeScan (f : UnifiedEvent → UnifiedEvent → UnifiedEvent) :
    UnifiedEvent → List UnifiedEvent → UnifiedEvent
  | e1, [] => e1
  | e1, e2 :: rest =>
    if e1.id == e2.id then
      if e2.index == "log" then mergeScan f (f e1 e2) rest
      else if !rContains e1.index '.' && rContains e2.index '.' then
        if splitDotHead e2.index == e1.index then f e1 e2
        else mergeScan f e1 rest
      else if rContains e1.index '.' && rContains e2.index '.' then
        if splitDotHead e1.index == splitDotHead e2.index then
          if rParseU32OrZero (splitDotSecond e1.index) < rParseU32OrZero (splitDotSecond e2.index)
          then f e1 e2
          else mergeScan f e1 rest
        else mergeScan f e1 rest
      else mergeScan f e1 rest
    else mergeScan f e1 rest

/-- The merge phase: when both lists are non-empty every instruction event
scans the full inner/log-event list; inner/log events are consumed here and
never enter the output themselves. -/
def mergePhase (f : UnifiedEvent → UnifiedEvent → UnifiedEvent)
    (instructionEvents innerEvents : List UnifiedEvent) : List UnifiedEvent :=
  if 0 < instructionEvents.length ∧ 0 < innerEvents.length then
    instructionEvents.map (fun e1 => mergeScan f e1 innerEvents)
  else instructionEvents

/-! ## Post-processing (`process_events`, `traits.rs` lines 379–420) -/

/-- The first downcast chain of `process_events`: a PumpFun token-create
pushes its user (and its creator when non-default and distinct) onto the dev
list; a PumpFun trade is flagged dev when its user or its creator is in the
dev list, else bot when its user is the bot wallet, else its dev flag is
cleared (the bot flag is left untouched). -/
def processChainOne (botWallet : Option Pubkey) (dev : List Pubkey) (e : UnifiedEvent) :
    List Pubkey × UnifiedEvent :=
  match e.payload with
  | .pumpFunCreateToken user creator =>
      (dev ++ [user] ++
        (if creator != pubkeyDefault && creator != user then [creator] else []), e)
  | .pumpFunTrade user creator isDev isBot r =>
      if dev.contains user || dev.contains creator then
        (dev, { e with payload := .pumpFunTrade user creator true isBot r })
      else if some user == botWallet then
        (dev, { e with payload := .pumpFunTrade user creator isDev true r })
      else
        (dev, { e with payload := .pumpFunTrade user creator false isBot r })
  | _ => (dev, e)

/-- The second downcast chain: a Bonk pool-create overwrites the single
remembered dev address; a Bonk trade is flagged dev when its payer equals
that address, else bot when its payer is the bot wallet, else its dev flag
is cleared (the bot flag is left untouched). -/
def processChainTwo (botWallet : Option Pubkey) (bonkDev : Option Pubkey)
    (e : UnifiedEvent) : Option Pubkey × UnifiedEvent :=
  match e.payload with
  | .bonkPoolCreate creator => (some creator, e)
  | .bonkTrade payer isDev isBot =>
      if some payer == bonkDev then
        (bonkDev, { e with payload := .bonkTrade payer true isBot })
      else if some payer == botWallet then
        (bonkDev, { e with payload := .bonkTrade payer isDev true })
      else
        (bonkDev, { e with payload := .bonkTrade payer false isBot })
  | _ => (bonkDev, e)

/-- The single forward pass of `process_events`, threading the dev list and
the Bonk dev address, and stamping the handling latency from the clock value
`now` (the source reads `chrono::Utc::now()` here — `now` makes that hidden
clock input explicit). -/
def processEventsGo (botWallet : Option Pubkey) (now : Int) :
    List Pubkey → Option Pubkey → List UnifiedEvent → List UnifiedEvent
  | _, _, [] => []
  | dev, bonkDev, e :: rest =>
    let s1 := processChainOne botWallet dev e
    let s2 := processChainTwo botWallet bonkDev s1.2
    { s2.2 with programHandleTimeConsumingMs := now - s2.2.programReceivedTimeMs } ::
      processEventsGo botWallet now s1.1 s2.1 rest

/-- `process_events` with empty initial state. -/
def processEvents (botWallet : Option Pubkey) (now : Int)
    (events : List UnifiedEvent) : List UnifiedEvent :=
  processEventsGo botWallet now [] none events

/-! ## `parse_transaction` -/

/-- `Pubkey::from_str(lookup).unwrap()` over the loaded-address strings
(writable first, then readonly). -/
def lookupKeys : List String → Option (List Pubkey)
  | [] => some []
  | s :: rest =>
    match pubkeyFromStr s, lookupKeys rest with
    | some k, some ks => some (k :: ks)
    | _, _ => none

/-- The metadata spine of `parse_transaction` for a non-failed transaction:
`inner_instructions` and `loaded_addresses` are both `unwrap`ped (absence
panics), and every loaded address is parsed with `unwrap` (invalid base58
panics). -/
def resolveMetaParts (meta : TransactionStatusMeta) :
    Except ParseErr (List Pubkey × List UiInnerInstructions) :=
  match meta.innerInstructions with
  | none => .error (.panic "inner_instructions unwrap in parse_transaction")
  | some inns =>
    match meta.loadedAddresses with
    | none => .error (.panic "loaded_addresses unwrap in parse_transaction")
    | some la =>
      match lookupKeys (la.writable ++ la.readonly) with
      | none => .error (.panic "Pubkey::from_str unwrap in parse_transaction")
      | some ks => .ok (ks, inns)

/-- Passes B, C and D of `parse_transaction`, producing the instruction-event
list (Pass B plus the instruction half of Pass C) and the inner/log-event
list (the inner half of Pass C plus Pass D).  Passes A and C are gated on
the error indicator; the log pass is not. -/
def instructionAndInnerEventsOf (p : EventParser) (tf : TransferFn)
    (tx : EncodedTransactionWithStatusMeta) (sig : String) (slot : Option Nat)
    (blockTime : Option Timestamp) (prtMs : Int) :
    Except ParseErr (List UnifiedEvent × List UnifiedEvent) :=
  match tx.meta with
  | none => .error .missingMetadata
  | some meta =>
    match (if meta.err.isNone then resolveMetaParts meta else .ok ([], [])) with
    | .error e => .error e
    | .ok (lookups, inns) =>
      let accounts :=
        match tx.transaction with
        | some vtx => vtx.staticAccountKeys ++ lookups
        | none => ([] : List Pubkey) ++ lookups
      let passBres :=
        match tx.transaction with
        | some vtx =>
            parseInstructionEventsFromVersionedTransaction p tf vtx sig slot blockTime prtMs
              (vtx.staticAccountKeys ++ lookups) inns
        | none => .ok []
      match passBres with
      | .error e => .error e
      | .ok passB =>
        match (if meta.err.isNone then passCAll p tf accounts sig slot blockTime prtMs inns
               else .ok ([], [])) with
        | .error e => .error e
        | .ok (cInstr, cInner) =>
          let logEvents :=
            match meta.logMessages with
            | some logs => parseEventsFromLogs p logs sig slot blockTime
            | none => []
          .ok (passB ++ cInstr, cInner ++ logEvents)

/-- `parse_transaction`: the passes, the merge phase, then the
post-processor.  The only surfaced error is the missing-metadata one; every
other `Except.error` is a modelled panic. -/
def parseTransaction (p : EventParser) (tf : TransferFn)
    (tx : EncodedTransactionWithStatusMeta) (sig : String) (slot : Option Nat)
    (blockTime : Option Timestamp) (prtMs : Int) (botWallet : Option Pubkey)
    (now : Int) : Except ParseErr (List UnifiedEvent) :=
  match instructionAndInnerEventsOf p tf tx sig slot blockTime prtMs with
  | .error e => .error e
  | .ok (instrEvents, innerEvents) =>
      .ok (processEvents botWallet now (mergePhase p.mergeFn instrEvents innerEvents))

/-! ## Specification-side definitions

These definitions restate parts of the specification in structured form; they
are compared with the source-translated definitions above by the claim
theorems and are never used inside them.
-/

/-- Structured view of an index string as the merge rules of §4.5 read it:
either it contains a dot — leading fragment plus numeric child (parsed with
the `unwrap_or(0)` semantics) — or it is an undotted atom. -/
inductive IdxShape where
  | nested (parent : String) (child : Nat)
  | top (s : String)
  deriving Repr, DecidableEq

/-- Parses an index string into its shape using the same primitive
operations the merge phase applies. -/
def indexShape (s : String) : IdxShape :=
  if rContains s '.' then .nested (splitDotHead s) (rParseU32OrZero (splitDotSecond s))
  else .top s

/-- The dev addresses one event contributes per §4.6: a PumpFun token-create
contributes its user, plus its creator when non-default and distinct. -/
def devContribution (e : UnifiedEvent) : List Pubkey :=
  match e.payload with
  | .pumpFunCreateToken user creator =>
      [user] ++ (if creator != pubkeyDefault && creator != user then [creator] else [])
  | _ => []

/-- The accumulated PumpFun creator/dev set of an event prefix. -/
def devSetOf (es : List UnifiedEvent) : List Pubkey := (es.map devContribution).flatten

/-- The remembered Bonk dev address after an event prefix, starting from a
given value: the creator of the last Bonk pool-create, if any. -/
def lastBonkCreatorFrom (b0 : Option Pubkey) (es : List UnifiedEvent) : Option Pubkey :=
  es.foldl (fun acc e =>
    match e.payload with
    | .bonkPoolCreate c => some c
    | _ => acc) b0

/-- The remembered Bonk dev address after an event prefix. -/
def lastBonkCreator (es : List UnifiedEvent) : Option Pubkey := lastBonkCreatorFrom none es

/-- Erases the only clock-dependent field of an event. -/
def scrubLatency (e : UnifiedEvent) : UnifiedEvent :=
  { e with programHandleTimeConsumingMs := 0 }

/-- Per-index account resolution through checked lookups: fails instead of
defaulting when any index is out of range. -/
def resolveAccountsChecked (ixAccounts : List Nat) (accounts : List Pubkey) :
    Option (List Pubkey) :=
  match ixAccounts with
  | [] => some []
  | i :: rest =>
    match accounts.get? i, resolveAccountsChecked rest accounts with
    | some k, some ks => some (k :: ks)
    | _, _ => none

/-- The bucket step of `parse_events_from_instruction` with checked account
resolution: identical to `instructionBucketStep` except that the per-index
lookup is fallible and a failed lookup skips the bucket. -/
def instructionBucketStepChecked (g : GenericEventParser) (ix : CompiledInstruction)
    (accounts : List Pubkey) (sig : String) (slot : Nat) (blockTime : Option Timestamp)
    (prtMs : Int) (index : String) (evs : List UnifiedEvent)
    (pr : List Nat × List GenericEventParseConfig) : List UnifiedEvent :=
  if ix.data.length < pr.1.length then evs
  else if ix.data.take pr.1.length == pr.1 then
    if !validateAccountIndices ix.accounts accounts.length then evs
    else
      match resolveAccountsChecked ix.accounts accounts with
      | none => evs
      | some accountPubkeys =>
          runInstructionConfigs g sig slot blockTime prtMs index
            (ix.data.drop pr.1.length) accountPubkeys pr.2 evs
  else evs

/-- `parse_events_from_instruction` with checked account resolution. -/
def genericInstructionEventsChecked (g : GenericEventParser) (ix : CompiledInstruction)
    (accounts : List Pubkey) (sig : String) (slot : Nat) (blockTime : Option Timestamp)
    (prtMs : Int) (index : String) : Except ParseErr (List UnifiedEvent) :=
  match accounts.get? ix.programIdIndex with
  | none => .error (.panic "index out of bounds in parse_events_from_instruction")
  | some programId =>
    if !(programId == g.programId) then .ok []
    else
      .ok (g.instructionConfigs.foldl
        (instructionBucketStepChecked g ix accounts sig slot blockTime prtMs index) [])

/-! ## Concrete instances

A small registry in the shape of the per-protocol ones (one configuration
with a 16-byte inner discriminator and a 1-byte instruction discriminator),
with parsers that expose the claim-relevant data flow: the instruction parser
fills the trade from the account side (reserves zero), the inner parser fills
the reserves from the payload, and the merge overlays the log-sourced
reserves as §4.5 prescribes.
-/

/-- An inner-instruction parser: a trade whose reserves come from the payload
head, tagged with the metadata's index. -/
def fixInnerParse (data : List Nat) (md : EventMetadata) : Option UnifiedEvent :=
  some { id := "X"
         eventType := md.eventType
         index := md.index
         programReceivedTimeMs := md.programReceivedTimeMs
         programHandleTimeConsumingMs := 0
         transferDatas := []
         payload := .pumpFunTrade 1 2 false false (data.headD 0) }

/-- An instruction parser: the same trade with reserves still zero. -/
def fixInstrParse (_data : List Nat) (_accs : List Pubkey) (md : EventMetadata) :
    Option UnifiedEvent :=
  some { id := "X"
         eventType := md.eventType
         index := md.index
         programReceivedTimeMs := md.programReceivedTimeMs
         programHandleTimeConsumingMs := 0
         transferDatas := []
         payload := .pumpFunTrade 1 2 false false 0 }

/-- The single registry entry of the concrete decoder. -/
def fixConfig : GenericEventParseConfig :=
  { innerInstructionDiscriminator := "0x00000000000000000000000000000000"
    instructionDiscriminator := [9]
    eventType := .pumpFunBuy
    innerInstructionParser := fixInnerParse
    instructionParser := fixInstrParse }

/-- The concrete generic parser (program id 7). -/
def fixGeneric : GenericEventParser := GenericEventParser.new 7 .pumpFun [fixConfig]

/-- Modelled from the spec (§4.5): the kind-specific merge takes the
instruction-sourced fields as base and overlays the log-sourced reserve
field. -/
def fixMergeFn (e1 e2 : UnifiedEvent) : UnifiedEvent :=
  match e1.payload, e2.payload with
  | .pumpFunTrade u c d b _, .pumpFunTrade _ _ _ _ r2 =>
      { e1 with payload := .pumpFunTrade u c d b r2 }
  | _, _ => e1

/-- The concrete decoder. -/
def fixParser : EventParser := EventParser.ofGeneric fixGeneric fixMergeFn

/-- A transfer-attribution collaborator that attaches nothing. -/
def fixTf : TransferFn := fun _ _ _ _ => []

/-- A top-level instruction matching the registry entry. -/
def fixIx : CompiledInstruction := { programIdIndex := 0, accounts := [], data := [9] }

/-- A one-instruction message whose only account is the handled program. -/
def fixVtx : VersionedTransaction := { staticAccountKeys := [7], instructions := [fixIx] }

/-- A program-data log line whose base64 payload is sixteen zero bytes (the
inner discriminator) followed by the byte 42. -/
def fixLogLine : String := "Program data: AAAAAAAAAAAAAAAAAAAAACo="

/-- Metadata of a failed transaction (error present, optional fields absent,
one program-data log line). -/
def fixMetaFailed : TransactionStatusMeta :=
  { err := some "InstructionError"
    innerInstructions := none
    loadedAddresses := none
    logMessages := some [fixLogLine] }

/-- A failed transaction carrying the matching instruction and log line. -/
def fixTxFailed : EncodedTransactionWithStatusMeta :=
  { transaction := some fixVtx, meta := some fixMetaFailed }

/-- Metadata of a successful transaction with empty inner instructions and
lookups. -/
def fixMetaOk : TransactionStatusMeta :=
  { err := none
    innerInstructions := some []
    loadedAddresses := some { writable := [], readonly := [] }
    logMessages := some [fixLogLine] }

/-- A successful, well-formed transaction. -/
def fixTxOk : EncodedTransactionWithStatusMeta :=
  { transaction := some fixVtx, meta := some fixMetaOk }

/-- Metadata of a successful transaction whose `inner_instructions` field is
absent. -/
def fixMetaNoInner : TransactionStatusMeta :=
  { err := none
    innerInstructions := none
    loadedAddresses := some { writable := [], readonly := [] }
    logMessages := none }

/-- A successful transaction with the `inner_instructions` metadata field
absent. -/
def fixTxNoInner : EncodedTransactionWithStatusMeta :=
  { transaction := some fixVtx, meta := some fixMetaNoInner }

/-- An inner-instruction group whose only compiled instruction has valid
(empty) base58 data but an out-of-range `program_id_index` of 5. -/
def fixInnerOobGroup : UiInnerInstructions :=
  { index := 0
    instructions := [UiInstruction.compiled { programIdIndex := 5, accounts := [], data := "" }] }

/-- Metadata of a successful transaction that is well-formed at the metadata
level (inner instructions and loaded addresses present) but carries the
out-of-range inner instruction. -/
def fixMetaInnerOob : TransactionStatusMeta :=
  { err := none
    innerInstructions := some [fixInnerOobGroup]
    loadedAddresses := some { writable := [], readonly := [] }
    logMessages := none }

/-- A successful transaction whose only malformation is the out-of-range
`program_id_index` inside an inner instruction. -/
def fixTxInnerOob : EncodedTransactionWithStatusMeta :=
  { transaction := some fixVtx, meta := some fixMetaInnerOob }

/-- Builds a bare event with the given id, index and payload. -/
def mkFixEvent (id : String) (index : String) (payload : EventPayload) : UnifiedEvent :=
  { id := id
    eventType := .unknownEvent
    index := index
    programReceivedTimeMs := 0
    programHandleTimeConsumingMs := 0
    transferDatas := []
    payload := payload }

/-- A PumpFun token-create with user 5 and default creator, followed by a
trade whose user is 6 but whose creator is 5. -/
def fixDevEvents : List UnifiedEvent :=
  [mkFixEvent "c" "0" (.pumpFunCreateToken 5 0),
   mkFixEvent "t" "1" (.pumpFunTrade 6 5 false false 0)]

/-- Two Bonk pool-creates (creators 1 then 2) followed by a trade paid by 1. -/
def fixBonkEvents : List UnifiedEvent :=
  [mkFixEvent "p0" "0" (.bonkPoolCreate 1),
   mkFixEvent "p1" "1" (.bonkPoolCreate 2),
   mkFixEvent "t2" "2" (.bonkTrade 1 false false)]

/-! ## Claim theorems -/

/-- C3: the claim states that whenever any account index of a handled
top-level instruction exceeds the account-vector length, the vector is padded
until the maximum index is addressable, and that a maximum index equal to the
length triggers the padding exactly once.  Evaluating the padding step of
Pass B refutes both: with account indices `[2]` against a vector of length 2
no padding happens at all, and with indices `[3]` the vector is padded only
up to length 3, so index 3 is still not addressable. -/
theorem claim_C3_padding_evaluation :
    padAccounts [2] [10, 20] = [10, 20]
    ∧ ¬ 2 < ([10, 20] : List Pubkey).length
    ∧ padAccounts [3] [10, 20] = [10, 20, 0]
    ∧ ¬ 3 < (padAccounts [3] [10, 20]).length := by decide

/-- The trade event the concrete decoder emits from Pass B alone (reserves
still zero). -/
def fixEventReserves0 : UnifiedEvent :=
  { id := "X"
    eventType := .pumpFunBuy
    index := "0"
    programReceivedTimeMs := 0
    programHandleTimeConsumingMs := 0
    transferDatas := []
    payload := .pumpFunTrade 1 2 false false 0 }

/-- The same trade after the log event has been merged in (reserves 42, from
the log payload). -/
def fixEventReserves42 : UnifiedEvent :=
  { fixEventReserves0 with payload := .pumpFunTrade 1 2 false false 42 }

/-- C1, counterexample: a failed transaction (error present) whose log stream
carries a program-data line.  The decoder still runs the log pass and merges
the log event into the Pass B event by id, so the returned list contains an
event (reserves 42, taken from the log payload) that Pass B alone never
produced (Pass B yields the trade with reserves 0); the claim that the output
of a failed transaction contains only events produced by Pass B is false. -/
theorem claim_C1_counterexample :
    fixMetaFailed.err.isSome = true
    ∧ parseTransaction fixParser fixTf fixTxFailed "s" none none 0 none 0
        = .ok [fixEventReserves42]
    ∧ parseInstructionEventsFromVersionedTransaction fixParser fixTf fixVtx "s" none none 0
        fixVtx.staticAccountKeys [] = .ok [fixEventReserves0]
    ∧ fixEventReserves42 ∉ [fixEventReserves0] := by
  exact ⟨rfl, rfl, rfl, by decide⟩

/-- C5, counterexample, two concrete panics.  First, a successful transaction
(no error) whose metadata lacks the `inner_instructions` field: the claim
says every malformed input other than a missing metadata record degrades to
fewer events without panicking; the source instead `unwrap`s the absent
field and panics.  Second, a successful transaction whose metadata is fully
present and valid but whose single compiled inner instruction has an
out-of-range `program_id_index`: Pass C hands it to the generic instruction
parser, which indexes the account vector unchecked and panics — so even
well-formed metadata does not guarantee degradation. -/
theorem claim_C5_counterexample :
    (fixTxNoInner.meta ≠ none
      ∧ parseTransaction fixParser fixTf fixTxNoInner "s" none none 0 none 0
          = .error (.panic "inner_instructions unwrap in parse_transaction"))
    ∧ (fixTxInnerOob.meta ≠ none
      ∧ fixMetaInnerOob.err = none
      ∧ fixMetaInnerOob.innerInstructions ≠ none
      ∧ fixMetaInnerOob.loadedAddresses ≠ none
      ∧ parseTransaction fixParser fixTf fixTxInnerOob "s" none none 0 none 0
          = .error (.panic "index out of bounds in parse_events_from_instruction")) := by
  exact ⟨⟨by decide, rfl⟩, by decide, rfl, by decide, by decide, rfl⟩

/-- C6, counterexample: a PumpFun token-create by user 5 (creator default)
followed by a trade whose initiator (user) is 6 but whose creator field is 5.
The claim requires `is_dev_create_token_trade` iff the *initiator* is in the
dev set `{5}` — here false — yet the source also tests the trade's creator
and flags the trade. -/
theorem claim_C6_counterexample :
    fixDevEvents.map (fun e => e.payload)
      = [.pumpFunCreateToken 5 0, .pumpFunTrade 6 5 false false 0]
    ∧ devSetOf (fixDevEvents.take 1) = [5]
    ∧ (processEvents none 0 fixDevEvents).map (fun e => e.payload)
      = [.pumpFunCreateToken 5 0, .pumpFunTrade 6 5 true false 0] := by decide

/-- C7, counterexample: Bonk pool-creates by creators 1 and then 2, followed
by a trade paid by 1.  The accumulated creator/dev set contains 1 from the
first event, so the claim requires the later trade by 1 to be flagged; the
source keeps only the most recent Bonk pool creator (2) and leaves the flag
false. -/
theorem claim_C7_counterexample :
    fixBonkEvents.map (fun e => e.payload)
      = [.bonkPoolCreate 1, .bonkPoolCreate 2, .bonkTrade 1 false false]
    ∧ (processEvents none 0 fixBonkEvents).map (fun e => e.payload)
      = [.bonkPoolCreate 1, .bonkPoolCreate 2, .bonkTrade 1 false false] := by decide

/-- C8, counterexample: decoding the same transaction twice with the same
arguments but at two different wall-clock instants (the hidden clock read by
the post-processor) yields different event lists — they differ in the
handling-latency field. -/
theorem claim_C8_counterexample :
    (parseTransaction fixParser fixTf fixTxFailed "s" none none 0 none 0).toOption
      ≠ (parseTransaction fixParser fixTf fixTxFailed "s" none none 0 none 1).toOption := by
  decide

/-- C2: the reconciliation scan of one instruction event `E1` over the
inner/log events behaves exactly per the three merge rules — on an id match,
an `E2` with index `"log"` merges unconditionally and scanning continues on
the merged event; when `E1`'s index has no dot and `E2`'s is dotted with the
same leading fragment `T` they merge and scanning stops; when both are dotted
with equal parent and `E2`'s child strictly greater they merge and scanning
stops; no other index shapes merge (the scan just moves on).  Stated as a
step characterization of `mergeScan` through the structured index view
`indexShape`. -/
theorem claim_C2_merge_rules (f : UnifiedEvent → UnifiedEvent → UnifiedEvent)
    (e1 e2 : UnifiedEvent) (rest : List UnifiedEvent) :
    mergeScan f e1 [] = e1
    ∧ mergeScan f e1 (e2 :: rest) =
        (if e1.id = e2.id then
          if e2.index = "log" then mergeScan f (f e1 e2) rest
          else
            match indexShape e1.index, indexShape e2.index with
            | .top s, .nested p _ => if p = s then f e1 e2 else mergeScan f e1 rest
            | .nested p1 c1, .nested p2 c2 =>
                if p1 = p2 ∧ c1 < c2 then f e1 e2 else mergeScan f e1 rest
            | _, _ => mergeScan f e1 rest
        else mergeScan f e1 rest) := by
  refine ⟨rfl, ?_⟩
  by_cases hid : e1.id = e2.id
  · by_cases hlog : e2.index = "log"
    · simp [mergeScan, hid, hlog]
    · cases h1 : rContains e1.index '.' <;> cases h2 : rContains e2.index '.'
      · simp [mergeScan, indexShape, hid, hlog, h1, h2]
      · by_cases hp : splitDotHead e2.index = e1.index <;>
          simp [mergeScan, indexShape, hid, hlog, h1, h2, hp]
      · simp [mergeScan, indexShape, hid, hlog, h1, h2]
      · by_cases hpp : splitDotHead e1.index = splitDotHead e2.index
        · by_cases hc :
            rParseU32OrZero (splitDotSecond e1.index) < rParseU32OrZero (splitDotSecond e2.index) <;>
            simp [mergeScan, indexShape, hid, hlog, h1, h2, hpp, hc]
        · simp [mergeScan, indexShape, hid, hlog, h1, h2, hpp]
  · simp [mergeScan, hid]

/-- The post-processing pass depends on the clock only through the latency
stamp: erasing that field makes the result clock-independent. -/
theorem processEventsGo_scrub (bot : Option Pubkey) (now1 now2 : Int) :
    ∀ (events : List UnifiedEvent) (dev : List Pubkey) (bonk : Option Pubkey),
      (processEventsGo bot now1 dev bonk events).map scrubLatency
        = (processEventsGo bot now2 dev bonk events).map scrubLatency := by
  intro events
  induction events with
  | nil => intro dev bonk; rfl
  | cons e rest ih =>
      intro dev bonk
      simp only [processEventsGo, List.map_cons, scrubLatency, ih]

/-- C8 (amended): decoding is a pure function of the raw transaction, the
caller's arguments and the wall-clock instant; with the clock's contribution
(the handling-latency stamp) erased, any two invocations at different
instants agree exactly.  The event lists themselves differ only in the
`program_handle_time_consuming_ms` field, as the counterexample shows. -/
theorem claim_C8_deterministic_up_to_latency (p : EventParser) (tf : TransferFn)
    (tx : EncodedTransactionWithStatusMeta) (sig : String) (slot : Option Nat)
    (bt : Option Timestamp) (prt : Int) (bot : Option Pubkey) (now1 now2 : Int) :
    Except.map (List.map scrubLatency) (parseTransaction p tf tx sig slot bt prt bot now1)
      = Except.map (List.map scrubLatency) (parseTransaction p tf tx sig slot bt prt bot now2) := by
  unfold parseTransaction
  cases h : instructionAndInnerEventsOf p tf tx sig slot bt prt with
  | error e => rfl
  | ok pr =>
      cases pr with
      | mk instrEvents innerEvents =>
          simp only [Except.map, processEvents]
          rw [processEventsGo_scrub]

/-! ## Post-processor lemmas -/

/-- One full post-processing step on one event under a given state. -/
def postStep (bot : Option Pubkey) (now : Int) (dev : List Pubkey) (bonkDev : Option Pubkey)
    (e : UnifiedEvent) : UnifiedEvent :=
  let s1 := processChainOne bot dev e
  let s2 := processChainTwo bot bonkDev s1.2
  { s2.2 with programHandleTimeConsumingMs := now - s2.2.programReceivedTimeMs }

/-- The dev-list state after one event grows by exactly that event's
contribution. -/
theorem processChainOne_fst (bot : Option Pubkey) (dev : List Pubkey) (e : UnifiedEvent) :
    (processChainOne bot dev e).1 = dev ++ devContribution e := by
  obtain ⟨i, et, ix, prt, hand, td, pl⟩ := e
  cases pl with
  | pumpFunCreateToken u c => simp [processChainOne, devContribution, List.append_assoc]
  | pumpFunTrade u c d b r =>
      simp only [processChainOne, devContribution]
      split
      · simp
      · split <;> simp
  | bonkPoolCreate c => simp [processChainOne, devContribution]
  | bonkTrade payer d b => simp [processChainOne, devContribution]
  | unknownPayload t => simp [processChainOne, devContribution]

/-- The Bonk dev-address state after one event folds exactly one step. -/
theorem processChainTwo_after_chainOne_fst (bot : Option Pubkey) (dev : List Pubkey)
    (bonk : Option Pubkey) (e : UnifiedEvent) :
    (processChainTwo bot bonk (processChainOne bot dev e).2).1 = lastBonkCreatorFrom bonk [e] := by
  obtain ⟨i, et, ix, prt, hand, td, pl⟩ := e
  cases pl with
  | pumpFunCreateToken u c => simp [processChainOne, processChainTwo, lastBonkCreatorFrom]
  | pumpFunTrade u c d b r =>
      simp only [processChainOne]
      split
      · simp [processChainTwo, lastBonkCreatorFrom]
      · split <;> simp [processChainTwo, lastBonkCreatorFrom]
  | bonkPoolCreate c => simp [processChainOne, processChainTwo, lastBonkCreatorFrom]
  | bonkTrade payer d b =>
      simp only [processChainOne, processChainTwo, lastBonkCreatorFrom]
      split
      · simp
      · split <;> simp
  | unknownPayload t => simp [processChainOne, processChainTwo, lastBonkCreatorFrom]

/-- Unrolls one step of the post-processing pass. -/
theorem processEventsGo_cons (bot : Option Pubkey) (now : Int) (dev : List Pubkey)
    (bonk : Option Pubkey) (e : UnifiedEvent) (rest : List UnifiedEvent) :
    processEventsGo bot now dev bonk (e :: rest)
      = postStep bot now dev bonk e ::
        processEventsGo bot now (dev ++ devContribution e) (lastBonkCreatorFrom bonk [e]) rest := by
  simp only [processEventsGo, postStep]
  rw [processChainOne_fst, processChainTwo_after_chainOne_fst]

/-- The event at position `k` of the post-processed list is the original
event processed under the state accumulated over the strict prefix. -/
theorem processEventsGo_get (bot : Option Pubkey) (now : Int) :
    ∀ (events : List UnifiedEvent) (dev : List Pubkey) (bonk : Option Pubkey) (k : Nat)
      (e : UnifiedEvent), events.get? k = some e →
      (processEventsGo bot now dev bonk events).get? k
        = some (postStep bot now (dev ++ devSetOf (events.take k))
            (lastBonkCreatorFrom bonk (events.take k)) e) := by
  intro events
  induction events with
  | nil => intro dev bonk k e hk; simp at hk
  | cons e' rest ih =>
      intro dev bonk k e hk
      cases k with
      | zero =>
          simp only [List.get?] at hk
          obtain rfl : e' = e := by injection hk
          rw [processEventsGo_cons]
          simp [devSetOf, lastBonkCreatorFrom]
      | succ k =>
          simp only [List.get?] at hk
          rw [processEventsGo_cons]
          simp only [List.get?]
          rw [ih _ _ _ _ hk]
          simp [devSetOf, lastBonkCreatorFrom, List.take_succ_cons, List.append_assoc]

/-- Post-processing a PumpFun trade under a given state: dev flag from
membership of the trade's user *or creator* in the dev list, else bot flag
from the bot wallet (dev flag untouched), else dev flag cleared (bot flag
untouched); latency stamped. -/
theorem postStep_pumpTrade (bot : Option Pubkey) (now : Int) (dev : List Pubkey)
    (bonk : Option Pubkey) (e : UnifiedEvent) (u c : Pubkey) (d b : Bool) (r : Nat)
    (h : e.payload = .pumpFunTrade u c d b r) :
    postStep bot now dev bonk e =
      { e with
        payload := .pumpFunTrade u c
          (if dev.contains u || dev.contains c then true
           else if some u == bot then d else false)
          (if dev.contains u || dev.contains c then b
           else if some u == bot then true else b) r
        programHandleTimeConsumingMs := now - e.programReceivedTimeMs } := by
  obtain ⟨i, et, ix, prt, hand, td, pl⟩ := e
  simp only at h
  subst h
  simp only [postStep, processChainOne, processChainTwo]
  cases hmem : dev.contains u || dev.contains c with
  | true => simp [hmem]
  | false =>
      cases hbot : some u == bot with
      | true => simp [hmem, hbot]
      | false => simp [hmem, hbot]

/-- Post-processing a Bonk trade under a given state: dev flag iff the payer
equals the remembered (most recent) pool creator, else bot flag, else dev
flag cleared; latency stamped. -/
theorem postStep_bonkTrade (bot : Option Pubkey) (now : Int) (dev : List Pubkey)
    (bonk : Option Pubkey) (e : UnifiedEvent) (payer : Pubkey) (d b : Bool)
    (h : e.payload = .bonkTrade payer d b) :
    postStep bot now dev bonk e =
      { e with
        payload := .bonkTrade payer
          (if some payer == bonk then true else if some payer == bot then d else false)
          (if some payer == bonk then b else if some payer == bot then true else b)
        programHandleTimeConsumingMs := now - e.programReceivedTimeMs } := by
  obtain ⟨i, et, ix, prt, hand, td, pl⟩ := e
  simp only at h
  subst h
  simp only [postStep, processChainOne, processChainTwo]
  cases hdev : some payer == bonk with
  | true => simp [hdev]
  | false =>
      cases hbot : some payer == bot with
      | true => simp [hdev, hbot]
      | false => simp [hdev, hbot]

/-- C6 (amended): the post-processor keeps two separate per-protocol
accumulators, not one shared set.  A PumpFun trade at position `k` is flagged
dev iff its user *or its creator* lies in the set accumulated from the PumpFun
token-creates of the strict prefix (each contributing its user, plus its
creator when non-default and distinct); otherwise it is flagged bot iff its
user equals the bot wallet (dev flag then kept); otherwise the dev flag is
cleared and the bot flag left unchanged.  A Bonk trade is flagged dev iff its
payer equals the creator of the most recent Bonk pool-create of the prefix,
with the same else-chain on the payer. -/
theorem claim_C6_flag_rules (bot : Option Pubkey) (now : Int) (events : List UnifiedEvent)
    (k : Nat) (e : UnifiedEvent) (hk : events.get? k = some e) :
    (∀ u c d b r, e.payload = .pumpFunTrade u c d b r →
      (processEvents bot now events).get? k = some
        { e with
          payload := .pumpFunTrade u c
            (if (devSetOf (events.take k)).contains u || (devSetOf (events.take k)).contains c
             then true else if some u == bot then d else false)
            (if (devSetOf (events.take k)).contains u || (devSetOf (events.take k)).contains c
             then b else if some u == bot then true else b) r
          programHandleTimeConsumingMs := now - e.programReceivedTimeMs })
    ∧ (∀ payer d b, e.payload = .bonkTrade payer d b →
      (processEvents bot now events).get? k = some
        { e with
          payload := .bonkTrade payer
            (if some payer == lastBonkCreator (events.take k) then true
             else if some payer == bot then d else false)
            (if some payer == lastBonkCreator (events.take k) then b
             else if some payer == bot then true else b)
          programHandleTimeConsumingMs := now - e.programReceivedTimeMs }) := by
  have hg := processEventsGo_get bot now events [] none k e hk
  simp only [List.nil_append] at hg
  constructor
  · intro u c d b r hp
    rw [processEvents, hg, postStep_pumpTrade bot now _ _ e u c d b r hp]
  · intro payer d b hp
    rw [processEvents, hg, postStep_bonkTrade bot now _ _ e payer d b hp]
    rfl

/-- C7 (amended): the dev flag is monotonic for PumpFun only — once the dev
set accumulated from PumpFun token-creates contains the trade's user or
creator, every later PumpFun trade by them is flagged.  For Bonk the
remembered address is overwritten by each pool-create, so only trades whose
payer equals the *most recent* pool creator of the prefix are flagged (the
counterexample shows monotonicity fails once a second pool-create occurs). -/
theorem claim_C7_monotonic_dev_flags (bot : Option Pubkey) (now : Int)
    (events : List UnifiedEvent) (k : Nat) (e : UnifiedEvent)
    (hk : events.get? k = some e) :
    (∀ u c d b r, e.payload = .pumpFunTrade u c d b r →
      ((devSetOf (events.take k)).contains u || (devSetOf (events.take k)).contains c) = true →
      ∃ e', (processEvents bot now events).get? k = some e'
        ∧ e'.payload = .pumpFunTrade u c true b r)
    ∧ (∀ payer d b, e.payload = .bonkTrade payer d b →
      (some payer == lastBonkCreator (events.take k)) = true →
      ∃ e', (processEvents bot now events).get? k = some e'
        ∧ e'.payload = .bonkTrade payer true b) := by
  have hg := processEventsGo_get bot now events [] none k e hk
  simp only [List.nil_append] at hg
  constructor
  · intro u c d b r hp hmem
    refine ⟨_, by rw [processEvents]; exact hg, ?_⟩
    rw [postStep_pumpTrade bot now _ _ e u c d b r hp, hmem]
    simp
  · intro payer d b hp hdev
    refine ⟨_, by rw [processEvents]; exact hg, ?_⟩
    rw [postStep_bonkTrade bot now _ _ e payer d b hp]
    simp only [lastBonkCreator] at hdev
    rw [hdev]
    simp

/-- Witness for C6: in the create-then-trade fixture the trade at position 1
is flagged dev (its creator 5 is in the accumulated set), bot stays false. -/
theorem claim_C6_witness :
    fixDevEvents.get? 1 = some (mkFixEvent "t" "1" (.pumpFunTrade 6 5 false false 0))
    ∧ (processEvents none 0 fixDevEvents).get? 1
        = some (mkFixEvent "t" "1" (.pumpFunTrade 6 5 true false 0)) :=
  ⟨by decide,
    (claim_C6_flag_rules none 0 fixDevEvents 1
        (mkFixEvent "t" "1" (.pumpFunTrade 6 5 false false 0)) (by decide)).1
      6 5 false false 0 rfl⟩

/-- Witness for C7: in the same fixture the trade's creator 5 is in the
accumulated dev set of the prefix, and the trade is indeed flagged. -/
theorem claim_C7_witness :
    ((devSetOf (fixDevEvents.take 1)).contains 6
      || (devSetOf (fixDevEvents.take 1)).contains 5) = true
    ∧ ∃ e', (processEvents none 0 fixDevEvents).get? 1 = some e'
        ∧ e'.payload = .pumpFunTrade 6 5 true false 0 :=
  ⟨by decide,
    (claim_C7_monotonic_dev_flags none 0 fixDevEvents 1
        (mkFixEvent "t" "1" (.pumpFunTrade 6 5 false false 0)) (by decide)).1
      6 5 false false 0 rfl (by decide)⟩

/-- C1 (amended): for a failed transaction (error present) Pass C is skipped
entirely — the inner/log-event list consists exactly of the log-pass events —
and the returned list is the post-processed merge of the Pass B events with
those log events.  No Pass C or log event appears as an element of the
output, but the log pass still runs and its events are merged by id into the
Pass B events (the counterexample shows log data reaching the output). -/
theorem claim_C1_failed_tx_shape (p : EventParser) (tf : TransferFn)
    (tx : EncodedTransactionWithStatusMeta) (sig : String) (slot : Option Nat)
    (bt : Option Timestamp) (prt : Int) (bot : Option Pubkey) (now : Int)
    (m : TransactionStatusMeta) (hm : tx.meta = some m) (herr : m.err.isSome = true) :
    parseTransaction p tf tx sig slot bt prt bot now =
      Except.map
        (fun passB => processEvents bot now (mergePhase p.mergeFn passB
          (match m.logMessages with
           | some logs => parseEventsFromLogs p logs sig slot bt
           | none => [])))
        (match tx.transaction with
         | some vtx =>
             parseInstructionEventsFromVersionedTransaction p tf vtx sig slot bt prt
               vtx.staticAccountKeys []
         | none => .ok []) := by
  have hne : m.err.isNone = false := by
    cases hme : m.err
    · rw [hme] at herr; simp at herr
    · simp [hme]
  unfold parseTransaction instructionAndInnerEventsOf
  rw [hm]
  simp only [hne, Bool.false_eq_true, if_false]
  cases htx : tx.transaction with
  | none =>
      cases hlm : m.logMessages <;> simp [Except.map]
  | some vtx =>
      cases hpb : parseInstructionEventsFromVersionedTransaction p tf vtx sig slot bt prt
          (vtx.staticAccountKeys ++ []) [] with
      | error e =>
          rw [List.append_nil] at hpb
          cases hlm : m.logMessages <;> simp [Except.map, hpb]
      | ok passB =>
          rw [List.append_nil] at hpb
          cases hlm : m.logMessages <;> simp [Except.map, hpb]

/-- Witness for C1: the failed fixture transaction instantiates the amended
shape equation. -/
theorem claim_C1_witness :
    fixTxFailed.meta = some fixMetaFailed ∧ fixMetaFailed.err.isSome = true
    ∧ parseTransaction fixParser fixTf fixTxFailed "s" none none 0 none 0 =
        Except.map
          (fun passB => processEvents none 0 (mergePhase fixParser.mergeFn passB
            (match fixMetaFailed.logMessages with
             | some logs => parseEventsFromLogs fixParser logs "s" none none
             | none => [])))
          (match fixTxFailed.transaction with
           | some vtx =>
               parseInstructionEventsFromVersionedTransaction fixParser fixTf vtx "s" none none 0
                 vtx.staticAccountKeys []
           | none => .ok []) :=
  ⟨rfl, rfl,
    claim_C1_failed_tx_shape fixParser fixTf fixTxFailed "s" none none 0 none 0
      fixMetaFailed rfl rfl⟩

/-- The post-processor never rewrites an event's id or index. -/
theorem postStep_id_index (bot : Option Pubkey) (now : Int) (dev : List Pubkey)
    (bonk : Option Pubkey) (e : UnifiedEvent) :
    (postStep bot now dev bonk e).id = e.id ∧ (postStep bot now dev bonk e).index = e.index := by
  obtain ⟨i, et, ix, prt, hand, td, pl⟩ := e
  cases pl with
  | pumpFunCreateToken u c => simp [postStep, processChainOne, processChainTwo]
  | pumpFunTrade u c d b r =>
      simp only [postStep, processChainOne]
      split
      · simp [processChainTwo]
      · split <;> simp [processChainTwo]
  | bonkPoolCreate c => simp [postStep, processChainOne, processChainTwo]
  | bonkTrade payer d b =>
      simp only [postStep, processChainOne, processChainTwo]
      split
      · simp
      · split <;> simp
  | unknownPayload t => simp [postStep, processChainOne, processChainTwo]

/-- When the dynamic merge preserves id and index (instruction-sourced fields
are the base per §4.5), so does a whole reconciliation scan. -/
theorem mergeScan_id_index (f : UnifiedEvent → UnifiedEvent → UnifiedEvent)
    (hf : ∀ a b, (f a b).id = a.id ∧ (f a b).index = a.index) :
    ∀ (l : List UnifiedEvent) (e1 : UnifiedEvent),
      (mergeScan f e1 l).id = e1.id ∧ (mergeScan f e1 l).index = e1.index := by
  intro l
  induction l with
  | nil => intro e1; exact ⟨rfl, rfl⟩
  | cons e2 rest ih =>
      intro e1
      simp only [mergeScan]
      split
      · split
        · exact ⟨(ih (f e1 e2)).1.trans (hf e1 e2).1, (ih (f e1 e2)).2.trans (hf e1 e2).2⟩
        · split
          · split
            · exact hf e1 e2
            · exact ih e1
          · split
            · split
              · split
                · exact hf e1 e2
                · exact ih e1
              · exact ih e1
            · exact ih e1
      · exact ih e1

/-- The post-processing pass preserves the list length. -/
theorem processEventsGo_length (bot : Option Pubkey) (now : Int) :
    ∀ (events : List UnifiedEvent) (dev : List Pubkey) (bonk : Option Pubkey),
      (processEventsGo bot now dev bonk events).length = events.length := by
  intro events
  induction events with
  | nil => intro dev bonk; rfl
  | cons e rest ih => intro dev bonk; simp [processEventsGo, ih]

/-- The merge phase preserves the instruction-event list length. -/
theorem mergePhase_length (f : UnifiedEvent → UnifiedEvent → UnifiedEvent)
    (i n : List UnifiedEvent) : (mergePhase f i n).length = i.length := by
  unfold mergePhase
  split <;> simp

/-- C9: every element of the list `parse_transaction` returns corresponds
positionally to an instruction-parser event (Pass B or the instruction half
of Pass C), with the same id and index — inner/log events are only merged
into those and never survive as output elements; one whose id matches no
instruction event is dropped.  Stated for any dynamic merge that keeps the
instruction-sourced id and index. -/
theorem claim_C9_output_origin (p : EventParser) (tf : TransferFn)
    (tx : EncodedTransactionWithStatusMeta) (sig : String) (slot : Option Nat)
    (bt : Option Timestamp) (prt : Int) (bot : Option Pubkey) (now : Int)
    (out : List UnifiedEvent)
    (hf : ∀ a b, (p.mergeFn a b).id = a.id ∧ (p.mergeFn a b).index = a.index)
    (h : parseTransaction p tf tx sig slot bt prt bot now = .ok out) :
    ∃ instrEvs innerEvs,
      instructionAndInnerEventsOf p tf tx sig slot bt prt = .ok (instrEvs, innerEvs)
      ∧ out.length = instrEvs.length
      ∧ ∀ k e', out.get? k = some e' →
          ∃ e1, instrEvs.get? k = some e1 ∧ e'.id = e1.id ∧ e'.index = e1.index := by
  unfold parseTransaction at h
  cases hio : instructionAndInnerEventsOf p tf tx sig slot bt prt with
  | error e => rw [hio] at h; exact absurd h (by simp)
  | ok pr =>
      obtain ⟨instrEvs, innerEvs⟩ := pr
      rw [hio] at h
      have hout : processEvents bot now (mergePhase p.mergeFn instrEvs innerEvs) = out := by
        injection h
      refine ⟨instrEvs, innerEvs, rfl, ?_, ?_⟩
      · rw [← hout, processEvents, processEventsGo_length, mergePhase_length]
      · intro k e' hk'
        have hlenM : (mergePhase p.mergeFn instrEvs innerEvs).length = instrEvs.length :=
          mergePhase_length _ _ _
        obtain ⟨em, hem⟩ : ∃ em, (mergePhase p.mergeFn instrEvs innerEvs).get? k = some em := by
          cases hMk : (mergePhase p.mergeFn instrEvs innerEvs).get? k with
          | none =>
              exfalso
              have hle := List.get?_eq_none.mp hMk
              have : out.get? k = none := by
                apply List.get?_eq_none.mpr
                rw [← hout, processEvents, processEventsGo_length, hlenM] at *
                exact hle
              rw [this] at hk'; exact Option.noConfusion hk'
          | some em => exact ⟨em, rfl⟩
        have hpost := processEventsGo_get bot now _ [] none k em hem
        simp only [List.nil_append] at hpost
        rw [processEvents] at hout
        rw [hout] at hpost
        rw [hk'] at hpost
        have he' : e' = postStep bot now
            (devSetOf ((mergePhase p.mergeFn instrEvs innerEvs).take k))
            (lastBonkCreatorFrom none ((mergePhase p.mergeFn instrEvs innerEvs).take k)) em := by
          injection hpost
        obtain ⟨e1, he1, hide⟩ :
            ∃ e1, instrEvs.get? k = some e1 ∧ em.id = e1.id ∧ em.index = e1.index := by
          unfold mergePhase at hem
          by_cases hg : 0 < instrEvs.length ∧ 0 < innerEvs.length
          · rw [if_pos hg] at hem
            rw [List.get?_map] at hem
            cases hi1 : instrEvs.get? k with
            | none => rw [hi1] at hem; exact Option.noConfusion hem
            | some e1 =>
                rw [hi1] at hem
                have hm : mergeScan p.mergeFn e1 innerEvs = em := by injection hem
                exact ⟨e1, rfl, by rw [← hm]; exact (mergeScan_id_index p.mergeFn hf innerEvs e1).1,
                  by rw [← hm]; exact (mergeScan_id_index p.mergeFn hf innerEvs e1).2⟩
          · rw [if_neg hg] at hem
            exact ⟨em, hem, rfl, rfl⟩
        refine ⟨e1, he1, ?_, ?_⟩
        · rw [he', (postStep_id_index _ _ _ _ _).1, hide.1]
        · rw [he', (postStep_id_index _ _ _ _ _).2, hide.2]

/-- The concrete merge overlays only the reserves, so it keeps id and index. -/
theorem fixMergeFn_id_index :
    ∀ a b : UnifiedEvent, (fixMergeFn a b).id = a.id ∧ (fixMergeFn a b).index = a.index := by
  intro a b
  obtain ⟨i, et, ix, prt, hand, td, pl⟩ := a
  cases pl <;> cases hb : b.payload <;> simp [fixMergeFn, hb]

/-- Witness for C9: the successful fixture transaction returns exactly the
merged Pass B event, and it corresponds positionally and by id/index to the
instruction-event list. -/
theorem claim_C9_witness :
    parseTransaction fixParser fixTf fixTxOk "s" none none 0 none 0 = .ok [fixEventReserves42]
    ∧ ∃ instrEvs innerEvs,
        instructionAndInnerEventsOf fixParser fixTf fixTxOk "s" none none 0
          = .ok (instrEvs, innerEvs)
        ∧ [fixEventReserves42].length = instrEvs.length
        ∧ ∀ k e', [fixEventReserves42].get? k = some e' →
            ∃ e1, instrEvs.get? k = some e1 ∧ e'.id = e1.id ∧ e'.index = e1.index :=
  ⟨rfl,
    claim_C9_output_origin fixParser fixTf fixTxOk "s" none none 0 none 0
      [fixEventReserves42] fixMergeFn_id_index rfl⟩

/-! ## The log pass (C4) -/

/-- `discriminator.strip_prefix("0x").unwrap_or(discriminator)`. -/
def stripHexTag (s : String) : String :=
  if rStartsWith s "0x" then String.mk (s.data.drop 2) else s

/-- The per-bucket dispatch of the log pass as the spec states it: a full
hex-prefix match invokes the parsers on the payload after 16 bytes; otherwise
a match of the 8-byte secondary discriminator — the trailing half of the
16-byte form — invokes them after 8 bytes; otherwise nothing. -/
def logBucketSpec (p : EventParser) (sig : String) (slot : Option Nat)
    (bt : Option Timestamp) (decoded : List Nat)
    (pr : String × List GenericEventParseConfig) : List UnifiedEvent :=
  if rStartsWith ("0x" ++ hexEncode decoded) pr.1 then
    logConfigEvents p sig slot bt (decoded.drop 16) pr.2
  else if 16 ≤ (stripHexTag pr.1).length
      ∧ rStartsWith ("0x" ++ hexEncode decoded)
          ("0x" ++ String.mk ((stripHexTag pr.1).data.drop 16)) then
    logConfigEvents p sig slot bt (decoded.drop 8) pr.2
  else []

/-- The source's bucket dispatch coincides with the spec's flattened form. -/
theorem logBucketEvents_eq_spec (p : EventParser) (sig : String) (slot : Option Nat)
    (bt : Option Timestamp) (decoded : List Nat)
    (pr : String × List GenericEventParseConfig) :
    logBucketEvents p sig slot bt decoded pr = logBucketSpec p sig slot bt decoded pr := by
  unfold logBucketEvents logBucketSpec stripHexTag
  by_cases h1 : rStartsWith ("0x" ++ hexEncode decoded) pr.1
  · simp [h1]
  · by_cases h2 : 16 ≤ (if rStartsWith pr.1 "0x" then String.mk (pr.1.data.drop 2) else pr.1).length
    · by_cases h3 : rStartsWith ("0x" ++ hexEncode decoded)
          ("0x" ++ String.mk ((if rStartsWith pr.1 "0x" then String.mk (pr.1.data.drop 2)
            else pr.1).data.drop 16))
      · simp [h1, h2, h3]
      · simp [h1, h2, h3]
    · simp [h1, h2]

/-- Membership in the accumulating parser fold of one bucket. -/
theorem logConfigEvents_mem (p : EventParser) (sig : String) (slot : Option Nat)
    (bt : Option Timestamp) (data : List Nat) :
    ∀ (configs : List GenericEventParseConfig) (acc : List UnifiedEvent) (e : UnifiedEvent),
      e ∈ configs.foldl (fun evs cfg =>
          match cfg.innerInstructionParser data (logMetadata p sig slot bt cfg) with
          | some ev => evs ++ [ev]
          | none => evs) acc →
      e ∈ acc ∨ ∃ cfg ∈ configs,
        cfg.innerInstructionParser data (logMetadata p sig slot bt cfg) = some e := by
  intro configs
  induction configs with
  | nil => intro acc e h; exact Or.inl h
  | cons cfg rest ih =>
      intro acc e h
      simp only [List.foldl_cons] at h
      cases hc : cfg.innerInstructionParser data (logMetadata p sig slot bt cfg) with
      | none =>
          rw [hc] at h
          rcases ih _ e h with h' | ⟨c, hc1, hc2⟩
          · exact Or.inl h'
          · exact Or.inr ⟨c, List.mem_cons_of_mem _ hc1, hc2⟩
      | some ev =>
          rw [hc] at h
          rcases ih _ e h with h' | ⟨c, hc1, hc2⟩
          · rcases List.mem_append.mp h' with h'' | h''
            · exact Or.inl h''
            · have hev : e = ev := by simpa using h''
              exact Or.inr ⟨cfg, List.mem_cons_self _ _, by rw [hc, hev]⟩
          · exact Or.inr ⟨c, List.mem_cons_of_mem _ hc1, hc2⟩

/-- C4: for a log line with the `"Program data: "` prefix, the remainder is
base64-decoded; an undecodable or shorter-than-16-byte payload yields zero
events; otherwise each registry bucket whose full discriminator matches the
hex prefix runs its parsers on the payload after 16 bytes, each bucket
matching only through the 8-byte secondary discriminator (the trailing half
of its 16-byte form) runs them after 8 bytes, and — provided the parsers
return events at the metadata's index, as the concrete ones do — every
resulting event has index `"log"`. -/
theorem claim_C4_log_pass (p : EventParser) (sig : String) (slot : Option Nat)
    (bt : Option Timestamp) (log rest : String)
    (hext : extractProgramData log = some rest)
    (hP : ∀ pr ∈ p.getInnerInstructionConfigs, ∀ cfg ∈ pr.2, ∀ data md e,
        cfg.innerInstructionParser data md = some e → e.index = md.index) :
    (decodeBase64 rest = none → logLineEvents p sig slot bt log = [])
    ∧ ∀ decoded, decodeBase64 rest = some decoded →
        (decoded.length < 16 → logLineEvents p sig slot bt log = [])
        ∧ (16 ≤ decoded.length →
            logLineEvents p sig slot bt log =
              (p.getInnerInstructionConfigs.map (logBucketSpec p sig slot bt decoded)).flatten
            ∧ ∀ e ∈ logLineEvents p sig slot bt log, e.index = "log") := by
  have hfun : logBucketEvents p sig slot bt = logBucketSpec p sig slot bt := by
    funext decoded pr
    exact logBucketEvents_eq_spec p sig slot bt decoded pr
  constructor
  · intro hnone
    simp [logLineEvents, hext, hnone]
  · intro decoded hdec
    constructor
    · intro hshort
      simp [logLineEvents, hext, hdec, Nat.not_le.mpr hshort]
    · intro hlong
      constructor
      · simp [logLineEvents, hext, hdec, hlong, hfun]
      · intro e he
        simp only [logLineEvents, hext, hdec, if_pos hlong] at he
        rw [List.mem_flatten] at he
        obtain ⟨l, hl, hel⟩ := he
        rw [List.mem_map] at hl
        obtain ⟨pr, hpr, rfl⟩ := hl
        have hmem : ∃ cfg ∈ pr.2, ∃ data,
            cfg.innerInstructionParser data (logMetadata p sig slot bt cfg) = some e := by
          rw [logBucketEvents_eq_spec] at hel
          unfold logBucketSpec at hel
          split at hel
          · rcases logConfigEvents_mem p sig slot bt _ pr.2 [] e hel with h | ⟨c, hc1, hc2⟩
            · simp at h
            · exact ⟨c, hc1, _, hc2⟩
          · split at hel
            · rcases logConfigEvents_mem p sig slot bt _ pr.2 [] e hel with h | ⟨c, hc1, hc2⟩
              · simp at h
              · exact ⟨c, hc1, _, hc2⟩
            · simp at hel
        obtain ⟨cfg, hcfg, data, hparse⟩ := hmem
        exact hP pr hpr cfg hcfg data _ e hparse

/-- The concrete registry's only parser returns events at the metadata's
index. -/
theorem fixParser_keeps_index :
    ∀ pr ∈ fixParser.getInnerInstructionConfigs, ∀ cfg ∈ pr.2, ∀ data md e,
      cfg.innerInstructionParser data md = some e → e.index = md.index := by
  intro pr hpr cfg hcfg data md e hp
  have hconf : fixParser.getInnerInstructionConfigs
      = [("0x00000000000000000000000000000000", [fixConfig])] := rfl
  rw [hconf] at hpr
  simp only [List.mem_singleton] at hpr
  subst hpr
  simp only [List.mem_singleton] at hcfg
  subst hcfg
  simp only [fixConfig, fixInnerParse, Option.some.injEq] at hp
  rw [← hp]

/-- Witness for C4: the fixture log line decodes to a 17-byte payload, and
every event the log pass produces from it carries index `"log"`. -/
theorem claim_C4_witness :
    extractProgramData fixLogLine = some "AAAAAAAAAAAAAAAAAAAAACo="
    ∧ ∀ decoded, decodeBase64 "AAAAAAAAAAAAAAAAAAAAACo=" = some decoded →
        (decoded.length < 16 → logLineEvents fixParser "s" none none fixLogLine = [])
        ∧ (16 ≤ decoded.length →
            logLineEvents fixParser "s" none none fixLogLine =
              (fixParser.getInnerInstructionConfigs.map
                (logBucketSpec fixParser "s" none none decoded)).flatten
            ∧ ∀ e ∈ logLineEvents fixParser "s" none none fixLogLine, e.index = "log") :=
  ⟨by decide,
    (claim_C4_log_pass fixParser "s" none none fixLogLine "AAAAAAAAAAAAAAAAAAAAACo="
      (by decide) fixParser_keeps_index).2⟩

/-- Pointwise-equal step functions fold identically. -/
theorem foldlPointwise {α β : Type} (f g : α → β → α) (h : ∀ a b, f a b = g a b) :
    ∀ (l : List β) (a : α), l.foldl f a = l.foldl g a := by
  intro l
  induction l with
  | nil => intro a; rfl
  | cons x xs ih => intro a; simp only [List.foldl_cons, h, ih]

/-- When every index is validated in range, the checked resolution succeeds
and returns exactly the indexed lookups. -/
theorem resolveAccountsChecked_of_valid (accounts : List Pubkey) :
    ∀ (l : List Nat), (∀ i ∈ l, i < accounts.length) →
      resolveAccountsChecked l accounts
        = some (l.map (fun i => accounts.getD i pubkeyDefault)) := by
  intro l
  induction l with
  | nil => intro h; rfl
  | cons i rest ih =>
      intro h
      have hi : i < accounts.length := h i (List.mem_cons_self _ _)
      have hg : accounts.get? i = some (accounts.getD i pubkeyDefault) := by
        cases hx : accounts.get? i with
        | none => exact absurd (List.get?_eq_none.mp hx) (Nat.not_le.mpr hi)
        | some x => rw [List.getD_eq_get?, hx]; rfl
      simp only [resolveAccountsChecked, hg,
        ih (fun j hj => h j (List.mem_cons_of_mem _ hj)), List.map_cons]

/-- Each discriminator bucket behaves identically under checked lookups:
validation guards the resolution, so the checked variant never fails. -/
theorem instructionBucketStep_eq_checked (g : GenericEventParser) (ix : CompiledInstruction)
    (accounts : List Pubkey) (sig : String) (slot : Nat) (bt : Option Timestamp)
    (prt : Int) (idx : String) (evs : List UnifiedEvent)
    (pr : List Nat × List GenericEventParseConfig) :
    instructionBucketStep g ix accounts sig slot bt prt idx evs pr
      = instructionBucketStepChecked g ix accounts sig slot bt prt idx evs pr := by
  unfold instructionBucketStep instructionBucketStepChecked
  by_cases h1 : ix.data.length < pr.1.length
  · simp [h1]
  · by_cases h2 : (ix.data.take pr.1.length == pr.1) = true
    · by_cases h3 : validateAccountIndices ix.accounts accounts.length = true
      · have hvalid : ∀ i ∈ ix.accounts, i < accounts.length := by
          intro i hi
          have := List.all_eq_true.mp h3 i hi
          exact of_decide_eq_true this
        rw [resolveAccountsChecked_of_valid accounts ix.accounts hvalid]
      · simp [h1, h2, h3]
    · simp [h1, h2]

/-- C10: given an in-range program-id index, `parse_events_from_instruction`
coincides with its variant whose per-index account lookups are checked — a
bucket only resolves accounts after `validate_account_indices` has certified
every index strictly below the account-vector length, so no lookup ever reads
out of bounds, and a failed validation skips the bucket (zero events).  The
second conjunct fixes the meaning of the validation predicate. -/
theorem claim_C10_account_safety (g : GenericEventParser) (ix : CompiledInstruction)
    (accounts : List Pubkey) (sig : String) (slot : Nat) (bt : Option Timestamp)
    (prt : Int) (idx : String) (h : ix.programIdIndex < accounts.length) :
    genericInstructionEvents g ix accounts sig slot bt prt idx
      = genericInstructionEventsChecked g ix accounts sig slot bt prt idx
    ∧ (validateAccountIndices ix.accounts accounts.length = true ↔
        ∀ i ∈ ix.accounts, i < accounts.length) := by
  constructor
  · unfold genericInstructionEvents genericInstructionEventsChecked
    cases hg : accounts.get? ix.programIdIndex with
    | none => rfl
    | some pid =>
        simp only
        by_cases hsh : (pid == g.programId) = true
        · simp only [hsh, Bool.not_true, Bool.false_eq_true, if_false]
          exact congrArg Except.ok
            (foldlPointwise _ _
              (fun a b => instructionBucketStep_eq_checked g ix accounts sig slot bt prt idx a b)
              g.instructionConfigs [])
        · simp only [Bool.not_eq_true] at hsh
          simp [hsh]
  · simp [validateAccountIndices, List.all_eq_true, decide_eq_true_eq]

/-- Witness for C10: the fixture instruction against the one-key account
vector instantiates the safety equivalence. -/
theorem claim_C10_witness :
    fixIx.programIdIndex < ([7] : List Pubkey).length
    ∧ (genericInstructionEvents fixGeneric fixIx [7] "s" 0 none 0 "0"
        = genericInstructionEventsChecked fixGeneric fixIx [7] "s" 0 none 0 "0"
      ∧ (validateAccountIndices fixIx.accounts ([7] : List Pubkey).length = true ↔
          ∀ i ∈ fixIx.accounts, i < ([7] : List Pubkey).length)) :=
  ⟨by decide, claim_C10_account_safety fixGeneric fixIx [7] "s" 0 none 0 "0" (by decide)⟩

/-! ## Behavior of the program's own parser for C5

The claim concerns `parse_transaction` as shipped, whose decoders all
delegate to `GenericEventParser`; the lemmas below therefore analyse the
pipeline instantiated with `EventParser.ofGeneric`, whose parse methods are
not total: the instruction method panics on an out-of-range program-id index
and the inner method on undecodable base58 data.
-/

/-- The generic instruction method's only failure is a panic, never the
surfaced missing-metadata error. -/
theorem genericInstructionEvents_no_missing (g : GenericEventParser)
    (ix : CompiledInstruction) (accounts : List Pubkey) (sig : String) (slot : Nat)
    (bt : Option Timestamp) (prt : Int) (idx : String) :
    genericInstructionEvents g ix accounts sig slot bt prt idx ≠ .error .missingMetadata := by
  unfold genericInstructionEvents
  cases hg : accounts.get? ix.programIdIndex with
  | none => simp [hg]
  | some pid =>
      simp only [hg]
      split <;> simp

/-- The generic inner-instruction method's only failure is a panic. -/
theorem genericInnerInstructionEvents_no_missing (g : GenericEventParser)
    (ui : UiCompiledInstruction) (sig : String) (slot : Nat) (bt : Option Timestamp)
    (prt : Int) (idx : String) :
    genericInnerInstructionEvents g ui sig slot bt prt idx ≠ .error .missingMetadata := by
  unfold genericInnerInstructionEvents
  cases hd : base58Decode ui.data with
  | none => simp [hd]
  | some decoded =>
      simp only [hd]
      split <;> simp

/-- The generic instruction method succeeds whenever the program-id index is
in range — the one place it panics. -/
theorem genericInstructionEvents_ok_of_lt (g : GenericEventParser)
    (ix : CompiledInstruction) (accounts : List Pubkey) (sig : String) (slot : Nat)
    (bt : Option Timestamp) (prt : Int) (idx : String)
    (h : ix.programIdIndex < accounts.length) :
    ∃ evs, genericInstructionEvents g ix accounts sig slot bt prt idx = .ok evs := by
  unfold genericInstructionEvents
  cases hg : accounts.get? ix.programIdIndex with
  | none => exact absurd (List.get?_eq_none.mp hg) (Nat.not_le.mpr h)
  | some pid =>
      simp only [hg]
      by_cases hb : (pid == g.programId) = true
      · simp only [hb, Bool.not_true, Bool.false_eq_true, if_false]
        exact ⟨_, rfl⟩
      · simp only [Bool.not_eq_true] at hb
        simp only [hb, Bool.not_false, if_true]
        exact ⟨[], rfl⟩

/-- The generic inner-instruction method succeeds whenever the data is
base58-decodable — the one place it panics. -/
theorem genericInnerInstructionEvents_ok_of_decodable (g : GenericEventParser)
    (ui : UiCompiledInstruction) (sig : String) (slot : Nat) (bt : Option Timestamp)
    (prt : Int) (idx : String) (h : (base58Decode ui.data).isSome = true) :
    ∃ evs, genericInnerInstructionEvents g ui sig slot bt prt idx = .ok evs := by
  unfold genericInnerInstructionEvents
  cases hd : base58Decode ui.data with
  | none => rw [hd] at h; exact absurd h (by simp)
  | some decoded =>
      simp only [hd]
      by_cases hl : decoded.length < 16
      · rw [if_pos hl]; exact ⟨[], rfl⟩
      · rw [if_neg hl]; exact ⟨_, rfl⟩

/-- Padding never shrinks the account vector. -/
theorem padAccounts_length_le (l : List Nat) (accounts : List Pubkey) :
    accounts.length ≤ (padAccounts l accounts).length := by
  simp only [padAccounts]
  split
  · rw [List.length_append]; exact Nat.le_add_right _ _
  · exact Nat.le_refl _

/-- Pass B with the generic parser never fails: the walker looks the
program-id index up before calling, and padding only grows the vector. -/
theorem passBGo_ofGeneric_ok (g : GenericEventParser)
    (mf : UnifiedEvent → UnifiedEvent → UnifiedEvent) (tf : TransferFn) (sig : String)
    (slot : Option Nat) (bt : Option Timestamp) (prt : Int)
    (inns : List UiInnerInstructions) :
    ∀ (l : List CompiledInstruction) (idx : Nat) (accounts : List Pubkey),
      ∃ evs, passBGo (EventParser.ofGeneric g mf) tf sig slot bt prt inns idx l accounts
        = .ok evs := by
  intro l
  induction l with
  | nil => intro idx accounts; exact ⟨[], rfl⟩
  | cons ix rest ih =>
      intro idx accounts
      simp only [passBGo]
      cases hg : accounts.get? ix.programIdIndex with
      | none => exact ih _ _
      | some pid =>
          by_cases hs : (EventParser.ofGeneric g mf).shouldHandle pid = true
          · simp only [hs, if_true]
            have hlt : ix.programIdIndex < accounts.length := by
              rcases List.get?_eq_some.mp hg with ⟨hl, _⟩
              exact hl
            obtain ⟨evs, hevs⟩ := genericInstructionEvents_ok_of_lt g ix
              (padAccounts ix.accounts accounts) sig (slot.getD 0) bt prt (Nat.repr idx)
              (Nat.lt_of_lt_of_le hlt (padAccounts_length_le _ _))
            have hevs' : (EventParser.ofGeneric g mf).parseEventsFromInstruction ix
                (padAccounts ix.accounts accounts) sig (slot.getD 0) bt prt (Nat.repr idx)
                = Except.ok evs := hevs
            rw [hevs']
            obtain ⟨r, hr⟩ := ih (idx + 1) (padAccounts ix.accounts accounts)
            rw [hr]
            exact ⟨_, rfl⟩
          · simp only [Bool.not_eq_true] at hs
            simp only [hs, Bool.false_eq_true, if_false]
            exact ih _ _

/-- Pass B as a whole never fails with the generic parser. -/
theorem passB_ofGeneric_ok (g : GenericEventParser)
    (mf : UnifiedEvent → UnifiedEvent → UnifiedEvent) (tf : TransferFn)
    (vtx : VersionedTransaction) (sig : String) (slot : Option Nat)
    (bt : Option Timestamp) (prt : Int) (accounts0 : List Pubkey)
    (inns : List UiInnerInstructions) :
    ∃ evs, parseInstructionEventsFromVersionedTransaction (EventParser.ofGeneric g mf) tf
        vtx sig slot bt prt accounts0 inns = .ok evs := by
  unfold parseInstructionEventsFromVersionedTransaction
  by_cases ha : accounts0.any (EventParser.ofGeneric g mf).shouldHandle = true
  · simp only [ha, if_true]
    exact passBGo_ofGeneric_ok g mf tf sig slot bt prt inns vtx.instructions 0 accounts0
  · simp only [Bool.not_eq_true] at ha
    simp only [ha, Bool.false_eq_true, if_false]
    exact ⟨[], rfl⟩

/-- Pass C over one group never produces the surfaced error when the
decoder's parse methods never do (their failures are panics). -/
theorem passCInstrGo_no_missing (p : EventParser) (tf : TransferFn) (accounts : List Pubkey)
    (sig : String) (slot : Option Nat) (bt : Option Timestamp) (prt : Int)
    (inn : UiInnerInstructions)
    (hq1 : ∀ ix accs s sl bt2 pr idx,
        p.parseEventsFromInstruction ix accs s sl bt2 pr idx ≠ .error .missingMetadata)
    (hq2 : ∀ ui s sl bt2 pr idx,
        p.parseEventsFromInnerInstruction ui s sl bt2 pr idx ≠ .error .missingMetadata) :
    ∀ (l : List UiInstruction) (pos : Nat),
      passCInstrGo p tf accounts sig slot bt prt inn pos l ≠ .error .missingMetadata := by
  intro l
  induction l with
  | nil => intro pos; simp [passCInstrGo]
  | cons ui rest ih =>
      intro pos
      cases ui with
      | other => simp only [passCInstrGo]; exact ih _
      | compiled c =>
          cases hd : base58Decode c.data with
          | none => simp [passCInstrGo, hd]
          | some decoded =>
              simp only [passCInstrGo, hd]
              cases hi : p.parseEventsFromInstruction ⟨c.programIdIndex, c.accounts, decoded⟩
                  accounts sig (slot.getD 0) bt prt
                  (Nat.repr inn.index ++ "." ++ Nat.repr pos) with
              | error e =>
                  simp only [hi]
                  intro hc
                  injection hc with he
                  exact hq1 ⟨c.programIdIndex, c.accounts, decoded⟩ accounts sig
                    (slot.getD 0) bt prt (Nat.repr inn.index ++ "." ++ Nat.repr pos)
                    (by rw [hi, he])
              | ok evs =>
                  simp only [hi]
                  cases hn : p.parseEventsFromInnerInstruction c sig (slot.getD 0) bt prt
                      (Nat.repr inn.index ++ "." ++ Nat.repr pos) with
                  | error e =>
                      simp only [hn]
                      intro hc
                      injection hc with he
                      exact hq2 c sig (slot.getD 0) bt prt
                        (Nat.repr inn.index ++ "." ++ Nat.repr pos) (by rw [hn, he])
                  | ok ievs =>
                      simp only [hn]
                      cases hrec : passCInstrGo p tf accounts sig slot bt prt inn (pos + 1)
                          rest with
                      | error e =>
                          simp only [hrec]
                          intro hc
                          injection hc with he
                          exact ih (pos + 1) (by rw [hrec, he])
                      | ok pr => obtain ⟨a, b⟩ := pr; simp [hrec]

/-- Pass C over all groups never produces the surfaced error, under the same
conditions. -/
theorem passCAll_no_missing (p : EventParser) (tf : TransferFn) (accounts : List Pubkey)
    (sig : String) (slot : Option Nat) (bt : Option Timestamp) (prt : Int)
    (hq1 : ∀ ix accs s sl bt2 pr idx,
        p.parseEventsFromInstruction ix accs s sl bt2 pr idx ≠ .error .missingMetadata)
    (hq2 : ∀ ui s sl bt2 pr idx,
        p.parseEventsFromInnerInstruction ui s sl bt2 pr idx ≠ .error .missingMetadata) :
    ∀ (inns : List UiInnerInstructions),
      passCAll p tf accounts sig slot bt prt inns ≠ .error .missingMetadata := by
  intro inns
  induction inns with
  | nil => simp [passCAll]
  | cons inn rest ih =>
      cases h1 : passCInstrGo p tf accounts sig slot bt prt inn 0 inn.instructions with
      | error e =>
          simp only [passCAll, h1]
          intro hcontra
          injection hcontra with he
          exact passCInstrGo_no_missing p tf accounts sig slot bt prt inn hq1 hq2
            inn.instructions 0 (by rw [h1, he])
      | ok pr1 =>
          obtain ⟨a1, b1⟩ := pr1
          cases h2 : passCAll p tf accounts sig slot bt prt rest with
          | error e =>
              simp only [passCAll, h1, h2]
              intro hcontra
              injection hcontra with he
              exact ih (by rw [h2, he])
          | ok pr2 => obtain ⟨a2, b2⟩ := pr2; simp [passCAll, h1, h2]

/-- Pass C over one group succeeds with the generic parser exactly when every
compiled instruction has base58-decodable data and an in-range program-id
index — the two panic sources on this path. -/
theorem passCInstrGo_ofGeneric_ok (g : GenericEventParser)
    (mf : UnifiedEvent → UnifiedEvent → UnifiedEvent) (tf : TransferFn)
    (accounts : List Pubkey) (sig : String) (slot : Option Nat) (bt : Option Timestamp)
    (prt : Int) (inn : UiInnerInstructions) :
    ∀ (l : List UiInstruction),
      (∀ ui ∈ l, ∀ c, ui = UiInstruction.compiled c →
          (base58Decode c.data).isSome = true ∧ c.programIdIndex < accounts.length) →
      ∀ (pos : Nat), ∃ pr,
        passCInstrGo (EventParser.ofGeneric g mf) tf accounts sig slot bt prt inn pos l
          = .ok pr := by
  intro l
  induction l with
  | nil => intro _ pos; exact ⟨([], []), rfl⟩
  | cons ui rest ih =>
      intro hdec pos
      cases ui with
      | other =>
          simp only [passCInstrGo]
          exact ih (fun u hu c hc => hdec u (List.mem_cons_of_mem _ hu) c hc) (pos + 1)
      | compiled c =>
          obtain ⟨hds, hlt⟩ := hdec (UiInstruction.compiled c) (List.mem_cons_self _ _) c rfl
          cases hd : base58Decode c.data with
          | none => rw [hd] at hds; exact absurd hds (by simp)
          | some decoded =>
              simp only [passCInstrGo, hd]
              obtain ⟨evs, hevs⟩ := genericInstructionEvents_ok_of_lt g
                ⟨c.programIdIndex, c.accounts, decoded⟩ accounts sig (slot.getD 0) bt prt
                (Nat.repr inn.index ++ "." ++ Nat.repr pos) hlt
              have hevs' : (EventParser.ofGeneric g mf).parseEventsFromInstruction
                  ⟨c.programIdIndex, c.accounts, decoded⟩ accounts sig (slot.getD 0) bt prt
                  (Nat.repr inn.index ++ "." ++ Nat.repr pos) = Except.ok evs := hevs
              rw [hevs']
              obtain ⟨ievs, hievs⟩ := genericInnerInstructionEvents_ok_of_decodable g c sig
                (slot.getD 0) bt prt (Nat.repr inn.index ++ "." ++ Nat.repr pos) hds
              have hievs' : (EventParser.ofGeneric g mf).parseEventsFromInnerInstruction c sig
                  (slot.getD 0) bt prt (Nat.repr inn.index ++ "." ++ Nat.repr pos)
                  = Except.ok ievs := hievs
              rw [hievs']
              obtain ⟨pr, hpr⟩ :=
                ih (fun u hu c' hc => hdec u (List.mem_cons_of_mem _ hu) c' hc) (pos + 1)
              obtain ⟨a, b⟩ := pr
              rw [hpr]
              exact ⟨_, rfl⟩

/-- Pass C over all groups succeeds with the generic parser under the same
per-instruction conditions. -/
theorem passCAll_ofGeneric_ok (g : GenericEventParser)
    (mf : UnifiedEvent → UnifiedEvent → UnifiedEvent) (tf : TransferFn)
    (accounts : List Pubkey) (sig : String) (slot : Option Nat) (bt : Option Timestamp)
    (prt : Int) :
    ∀ (inns : List UiInnerInstructions),
      (∀ inn ∈ inns, ∀ ui ∈ inn.instructions, ∀ c, ui = UiInstruction.compiled c →
          (base58Decode c.data).isSome = true ∧ c.programIdIndex < accounts.length) →
      ∃ pr, passCAll (EventParser.ofGeneric g mf) tf accounts sig slot bt prt inns
        = .ok pr := by
  intro inns
  induction inns with
  | nil => intro _; exact ⟨([], []), rfl⟩
  | cons inn rest ih =>
      intro hdec
      obtain ⟨pr1, hpr1⟩ := passCInstrGo_ofGeneric_ok g mf tf accounts sig slot bt prt inn
        inn.instructions (fun u hu c hc => hdec inn (List.mem_cons_self _ _) u hu c hc) 0
      obtain ⟨pr2, hpr2⟩ := ih (fun i hi => hdec i (List.mem_cons_of_mem _ hi))
      obtain ⟨a1, b1⟩ := pr1
      obtain ⟨a2, b2⟩ := pr2
      simp only [passCAll, hpr1, hpr2]
      exact ⟨_, rfl⟩

/-- Loaded-address parsing succeeds when every string is a valid key. -/
theorem lookupKeys_ok :
    ∀ (l : List String), (∀ s ∈ l, (pubkeyFromStr s).isSome = true) →
      ∃ ks, lookupKeys l = some ks := by
  intro l
  induction l with
  | nil => intro _; exact ⟨[], rfl⟩
  | cons s rest ih =>
      intro h
      have hs : (pubkeyFromStr s).isSome = true := h s (List.mem_cons_self _ _)
      cases hps : pubkeyFromStr s with
      | none => rw [hps] at hs; exact absurd hs (by simp)
      | some k =>
          simp only [lookupKeys, hps]
          obtain ⟨ks, hks⟩ := ih (fun t ht => h t (List.mem_cons_of_mem _ ht))
          rw [hks]
          exact ⟨_, rfl⟩

/-- Loaded-address parsing preserves the list length. -/
theorem lookupKeys_length :
    ∀ (l : List String) (ks : List Pubkey), lookupKeys l = some ks → ks.length = l.length := by
  intro l
  induction l with
  | nil =>
      intro ks h
      simp only [lookupKeys, Option.some.injEq] at h
      rw [← h]
      rfl
  | cons s rest ih =>
      intro ks h
      cases hps : pubkeyFromStr s with
      | none => simp [lookupKeys, hps] at h
      | some k =>
          cases hrest : lookupKeys rest with
          | none => simp [lookupKeys, hps, hrest] at h
          | some ks' =>
              simp only [lookupKeys, hps, hrest, Option.some.injEq] at h
              rw [← h]
              simp [ih ks' hrest]

/-- The metadata spine's failures are all panics, never the surfaced error. -/
theorem resolveMetaParts_no_missing (meta : TransactionStatusMeta) :
    resolveMetaParts meta ≠ .error .missingMetadata := by
  unfold resolveMetaParts
  cases meta.innerInstructions with
  | none => simp
  | some inns =>
      cases meta.loadedAddresses with
      | none => simp
      | some la =>
          cases h : lookupKeys (la.writable ++ la.readonly) with
          | none => simp [h]
          | some ks => simp [h]

/-- The length of the account vector Pass C runs against: the static keys of
the decoded message (none when the transaction fails to decode) extended by
one key per loaded-address string. -/
def passCAccountLen (tx : EncodedTransactionWithStatusMeta) (la : LoadedAddresses) : Nat :=
  (match tx.transaction with
   | some vtx => vtx.staticAccountKeys.length
   | none => 0) + (la.writable.length + la.readonly.length)

/-- On a failed transaction the pipeline with the generic parser always
succeeds: the metadata unwraps are skipped, Pass C does not run, and Pass B
guards its own program-id lookup. -/
theorem instrInner_ofGeneric_ok_of_failed (g : GenericEventParser)
    (mf : UnifiedEvent → UnifiedEvent → UnifiedEvent) (tf : TransferFn)
    (tx : EncodedTransactionWithStatusMeta) (sig : String) (slot : Option Nat)
    (bt : Option Timestamp) (prt : Int) (m : TransactionStatusMeta)
    (hm : tx.meta = some m) (herr : m.err.isSome = true) :
    ∃ pr, instructionAndInnerEventsOf (EventParser.ofGeneric g mf) tf tx sig slot bt prt
      = .ok pr := by
  have hne : m.err.isNone = false := by
    cases hme : m.err
    · rw [hme] at herr; simp at herr
    · simp [hme]
  unfold instructionAndInnerEventsOf
  rw [hm]
  simp only [hne, Bool.false_eq_true, if_false]
  cases htx : tx.transaction with
  | some vtx =>
      obtain ⟨passB, hpb⟩ :=
        passB_ofGeneric_ok g mf tf vtx sig slot bt prt (vtx.staticAccountKeys ++ []) []
      simp only [hpb]
      exact ⟨_, rfl⟩
  | none => exact ⟨_, rfl⟩

/-- On a successful transaction the pipeline with the generic parser succeeds
when the metadata parts are present and valid and every compiled inner
instruction is decodable with an in-range program-id index. -/
theorem instrInner_ofGeneric_ok_of_wellformed (g : GenericEventParser)
    (mf : UnifiedEvent → UnifiedEvent → UnifiedEvent) (tf : TransferFn)
    (tx : EncodedTransactionWithStatusMeta) (sig : String) (slot : Option Nat)
    (bt : Option Timestamp) (prt : Int) (m : TransactionStatusMeta)
    (inns : List UiInnerInstructions) (la : LoadedAddresses)
    (hm : tx.meta = some m) (herr : m.err = none)
    (hinns : m.innerInstructions = some inns) (hla : m.loadedAddresses = some la)
    (hlook : ∀ s ∈ la.writable ++ la.readonly, (pubkeyFromStr s).isSome = true)
    (hdec : ∀ inn ∈ inns, ∀ ui ∈ inn.instructions, ∀ c, ui = UiInstruction.compiled c →
        (base58Decode c.data).isSome = true ∧ c.programIdIndex < passCAccountLen tx la) :
    ∃ pr, instructionAndInnerEventsOf (EventParser.ofGeneric g mf) tf tx sig slot bt prt
      = .ok pr := by
  have hne : m.err.isNone = true := by simp [herr]
  obtain ⟨ks, hks⟩ := lookupKeys_ok (la.writable ++ la.readonly) hlook
  have hkslen : ks.length = la.writable.length + la.readonly.length := by
    have h := lookupKeys_length _ _ hks
    rw [List.length_append] at h
    exact h
  have hres : resolveMetaParts m = .ok (ks, inns) := by
    unfold resolveMetaParts
    simp only [hinns, hla, hks]
  unfold instructionAndInnerEventsOf
  rw [hm]
  simp only [hne, if_true, hres]
  cases htx : tx.transaction with
  | some vtx =>
      have hlen : passCAccountLen tx la = (vtx.staticAccountKeys ++ ks).length := by
        simp [passCAccountLen, htx, List.length_append, hkslen]
      obtain ⟨passB, hpb⟩ :=
        passB_ofGeneric_ok g mf tf vtx sig slot bt prt (vtx.staticAccountKeys ++ ks) inns
      simp only [hpb]
      obtain ⟨pr2, hpr2⟩ := passCAll_ofGeneric_ok g mf tf (vtx.staticAccountKeys ++ ks) sig
        slot bt prt inns
        (fun inn hi ui hu c hc => ⟨(hdec inn hi ui hu c hc).1,
          hlen ▸ (hdec inn hi ui hu c hc).2⟩)
      obtain ⟨a2, b2⟩ := pr2
      simp only [hne, if_true, hpr2]
      exact ⟨_, rfl⟩
  | none =>
      have hlen : passCAccountLen tx la = (([] : List Pubkey) ++ ks).length := by
        simp [passCAccountLen, htx, hkslen]
      obtain ⟨pr2, hpr2⟩ := passCAll_ofGeneric_ok g mf tf (([] : List Pubkey) ++ ks) sig
        slot bt prt inns
        (fun inn hi ui hu c hc => ⟨(hdec inn hi ui hu c hc).1,
          hlen ▸ (hdec inn hi ui hu c hc).2⟩)
      obtain ⟨a2, b2⟩ := pr2
      simp only [hne, if_true, hpr2]
      exact ⟨_, rfl⟩

/-- Whenever the metadata record is present, the pipeline with the generic
parser never yields the surfaced missing-metadata error: all its other
failures are panics. -/
theorem instrInner_ofGeneric_no_missing (g : GenericEventParser)
    (mf : UnifiedEvent → UnifiedEvent → UnifiedEvent) (tf : TransferFn)
    (tx : EncodedTransactionWithStatusMeta) (sig : String) (slot : Option Nat)
    (bt : Option Timestamp) (prt : Int) (m : TransactionStatusMeta)
    (hm : tx.meta = some m) :
    instructionAndInnerEventsOf (EventParser.ofGeneric g mf) tf tx sig slot bt prt
      ≠ .error .missingMetadata := by
  have hq1 : ∀ ix accs s sl bt2 pr idx,
      (EventParser.ofGeneric g mf).parseEventsFromInstruction ix accs s sl bt2 pr idx
        ≠ .error .missingMetadata :=
    fun ix accs s sl bt2 pr idx => genericInstructionEvents_no_missing g ix accs s sl bt2 pr idx
  have hq2 : ∀ ui s sl bt2 pr idx,
      (EventParser.ofGeneric g mf).parseEventsFromInnerInstruction ui s sl bt2 pr idx
        ≠ .error .missingMetadata :=
    fun ui s sl bt2 pr idx => genericInnerInstructionEvents_no_missing g ui s sl bt2 pr idx
  unfold instructionAndInnerEventsOf
  rw [hm]
  by_cases herr : m.err.isNone = true
  · simp only [herr, if_true]
    cases hr : resolveMetaParts m with
    | error e =>
        simp only [hr]
        intro hc
        injection hc with he
        exact resolveMetaParts_no_missing m (by rw [hr, he])
    | ok pr =>
        obtain ⟨lookups, inns⟩ := pr
        simp only [hr]
        cases htx : tx.transaction with
        | some vtx =>
            obtain ⟨passB, hpb⟩ :=
              passB_ofGeneric_ok g mf tf vtx sig slot bt prt
                (vtx.staticAccountKeys ++ lookups) inns
            simp only [hpb]
            cases hc : passCAll (EventParser.ofGeneric g mf) tf
                (vtx.staticAccountKeys ++ lookups) sig slot bt prt inns with
            | error e =>
                simp only [herr, if_true, hc]
                intro hcon
                injection hcon with he
                exact passCAll_no_missing (EventParser.ofGeneric g mf) tf _ sig slot bt prt
                  hq1 hq2 inns (by rw [hc, he])
            | ok pr2 =>
                obtain ⟨a2, b2⟩ := pr2
                simp only [herr, if_true, hc]
                simp
        | none =>
            cases hc : passCAll (EventParser.ofGeneric g mf) tf (([] : List Pubkey) ++ lookups)
                sig slot bt prt inns with
            | error e =>
                simp only [herr, if_true, hc]
                intro hcon
                injection hcon with he
                exact passCAll_no_missing (EventParser.ofGeneric g mf) tf _ sig slot bt prt
                  hq1 hq2 inns (by rw [hc, he])
            | ok pr2 =>
                obtain ⟨a2, b2⟩ := pr2
                simp only [herr, if_true, hc]
                simp
  · simp only [Bool.not_eq_true] at herr
    simp only [herr, Bool.false_eq_true, if_false]
    cases htx : tx.transaction with
    | some vtx =>
        obtain ⟨passB, hpb⟩ :=
          passB_ofGeneric_ok g mf tf vtx sig slot bt prt (vtx.staticAccountKeys ++ []) []
        simp only [hpb]
        simp
    | none => simp

/-- C5 (amended): stated for the program's own parser composition — a
`GenericEventParser` packaged as the trait value, as every shipped protocol
decoder is.  The surfaced error arm is reserved for the missing metadata
record: `parse_transaction` returns it iff the metadata is absent.  A failed
transaction always degrades to an event list.  A successful transaction
degrades to an event list when its optional metadata is present and valid
*and* every compiled inner instruction has base58-decodable data and an
in-range program-id index; outside those conditions — absent
`inner_instructions`/`loaded_addresses`, an invalid loaded address,
undecodable inner-instruction data, or an out-of-range `program_id_index`
handed to the unchecked `accounts[...]` of the generic instruction parser —
the source panics instead of degrading, as the counterexample's two concrete
panics show. -/
theorem claim_C5_error_surface (g : GenericEventParser)
    (mf : UnifiedEvent → UnifiedEvent → UnifiedEvent) (tf : TransferFn)
    (tx : EncodedTransactionWithStatusMeta) (sig : String) (slot : Option Nat)
    (bt : Option Timestamp) (prt : Int) (bot : Option Pubkey) (now : Int) :
    (parseTransaction (EventParser.ofGeneric g mf) tf tx sig slot bt prt bot now
        = .error .missingMetadata ↔ tx.meta = none)
    ∧ (∀ m, tx.meta = some m → m.err.isSome = true →
        ∃ evs, parseTransaction (EventParser.ofGeneric g mf) tf tx sig slot bt prt bot now
          = .ok evs)
    ∧ (∀ m inns la, tx.meta = some m → m.err = none →
        m.innerInstructions = some inns → m.loadedAddresses = some la →
        (∀ s ∈ la.writable ++ la.readonly, (pubkeyFromStr s).isSome = true) →
        (∀ inn ∈ inns, ∀ ui ∈ inn.instructions, ∀ c, ui = UiInstruction.compiled c →
            (base58Decode c.data).isSome = true ∧ c.programIdIndex < passCAccountLen tx la) →
        ∃ evs, parseTransaction (EventParser.ofGeneric g mf) tf tx sig slot bt prt bot now
          = .ok evs) := by
  refine ⟨⟨?_, ?_⟩, ?_, ?_⟩
  · intro h
    cases htm : tx.meta with
    | none => rfl
    | some m =>
        exfalso
        unfold parseTransaction at h
        cases hio : instructionAndInnerEventsOf (EventParser.ofGeneric g mf) tf tx sig slot
            bt prt with
        | error e =>
            rw [hio] at h
            injection h with he
            exact instrInner_ofGeneric_no_missing g mf tf tx sig slot bt prt m htm
              (by rw [hio, he])
        | ok pr =>
            obtain ⟨a, b⟩ := pr
            rw [hio] at h
            exact Except.noConfusion h
  · intro h
    unfold parseTransaction instructionAndInnerEventsOf
    rw [h]
  · intro m hm herr
    obtain ⟨pr, hpr⟩ := instrInner_ofGeneric_ok_of_failed g mf tf tx sig slot bt prt m hm herr
    obtain ⟨a, b⟩ := pr
    exact ⟨_, by unfold parseTransaction; rw [hpr]⟩
  · intro m inns la hm herr hinns hla hlook hdec
    obtain ⟨pr, hpr⟩ := instrInner_ofGeneric_ok_of_wellformed g mf tf tx sig slot bt prt
      m inns la hm herr hinns hla hlook hdec
    obtain ⟨a, b⟩ := pr
    exact ⟨_, by unfold parseTransaction; rw [hpr]⟩

/-- Witness for C5: the program's own concrete decoder (`fixParser`, the
generic parser packaged as the trait value) on the well-formed successful
fixture transaction — the missing-metadata error characterizes exactly the
absent record, and the parse returns an event list. -/
theorem claim_C5_witness :
    (parseTransaction fixParser fixTf fixTxOk "s" none none 0 none 0
        = .error .missingMetadata ↔ fixTxOk.meta = none)
    ∧ ∃ evs, parseTransaction fixParser fixTf fixTxOk "s" none none 0 none 0 = .ok evs := by
  have h := claim_C5_error_surface fixGeneric fixMergeFn fixTf fixTxOk "s" none none 0 none 0
  exact ⟨h.1, h.2.2 fixMetaOk [] { writable := [], readonly := [] } rfl rfl rfl rfl
    (by intro s hs; simp at hs) (by intro inn hi; simp at hi)⟩

end SolStreamer
